import Mathlib

/-!
Verification development for the gorch VSCode extension
(`vscode-gorch-extension`): a shallow embedding in Lean 4 of the
index service (`src/services/indexService.ts`, reproduced in
`USAGE_GUIDE.md`), the diagnostic provider
(`src/providers/diagnosticProvider.ts`), the definition provider
(`EnhancedDefinitionProvider`), the operator-line parser
(`src/services/parser.ts`) and the Go utilities (`GoUtils`).

Texts are modelled as `List Char`; the JavaScript regular expressions
used by the sources are embedded as explicit character scanners with
the same matching semantics on the inputs that arise (leftmost match,
global scans resume after the end of the previous match, lazy
quantifiers stop at the first occurrence of the closing delimiter).
Source-position bookkeeping (line numbers computed via `positionAt`)
is omitted from the declaration records: no claim below depends on
it, and `findOperatorRange` always succeeds on indexed operators
because their `startLine`/`endLine` fields are always set by the
parser.  Timestamps (`lastUpdated`, `duration`, `lastModified`) are
likewise omitted.
-/

namespace Gorch

/-- The open-brace character, `\x7b`. -/
def lbrace : Char := '\x7b'

/-- The close-brace character, `\x7d`. -/
def rbrace : Char := '\x7d'

/-- JavaScript regex `\s` on the characters that occur in practice. -/
def isWsChar (c : Char) : Bool :=
  c = ' ' || c = '\t' || c = '\n' || c = '\r' || c = '\x0b' || c = '\x0c'

/-- JavaScript regex `\d`. -/
def isDigitChar (c : Char) : Bool :=
  '0' ≤ c && c ≤ '9'

/-- JavaScript regex `\w`. -/
def isWordChar (c : Char) : Bool :=
  ('a' ≤ c && c ≤ 'z') || ('A' ≤ c && c ≤ 'Z') || isDigitChar c || c = '_'

/-- JavaScript regex line terminators excluded by `.`. -/
def isNlChar (c : Char) : Bool :=
  c = '\n' || c = '\r'

/-- Skip `\s*`. -/
def dropWs : List Char → List Char
  | [] => []
  | c :: cs => if isWsChar c then dropWs cs else c :: cs

/-- Match one literal character. -/
def expectChar (c : Char) : List Char → Option (List Char)
  | [] => none
  | x :: xs => if x = c then some xs else none

/-- Match a literal character sequence. -/
def expectLit : List Char → List Char → Option (List Char)
  | [], s => some s
  | _ :: _, [] => none
  | l :: ls, x :: xs => if x = l then expectLit ls xs else none

/-- Characters up to (and consuming) the first occurrence of `stop`;
`none` when `stop` does not occur.  Embeds the lazy patterns
`([^X]*)X` and `([\s\S]*?)X`. -/
def takeUntilChar (stop : Char) : List Char → Option (List Char × List Char)
  | [] => none
  | c :: cs =>
    if c = stop then some ([], cs)
    else
      match takeUntilChar stop cs with
      | none => none
      | some (pre, rest) => some (c :: pre, rest)

/-- Like `takeUntilChar` but failing on a line terminator, embedding
the lazy pattern `(.*?)X` whose `.` does not match line breaks. -/
def takeUntilCharNoNl (stop : Char) : List Char → Option (List Char × List Char)
  | [] => none
  | c :: cs =>
    if c = stop then some ([], cs)
    else if isNlChar c then none
    else
      match takeUntilCharNoNl stop cs with
      | none => none
      | some (pre, rest) => some (c :: pre, rest)

/-- Maximal run of decimal digits (greedy `\d*`). -/
def digitsRun : List Char → List Char × List Char
  | [] => ([], [])
  | c :: cs =>
    if isDigitChar c then
      match digitsRun cs with
      | (ds, rest) => (c :: ds, rest)
    else ([], c :: cs)

/-- Maximal run of word characters (greedy `\w*`). -/
def wordRun : List Char → List Char × List Char
  | [] => ([], [])
  | c :: cs =>
    if isWordChar c then
      match wordRun cs with
      | (ds, rest) => (c :: ds, rest)
    else ([], c :: cs)

/-- Brace-balanced body scan: characters up to the close brace that
matches an already-open block, tracking the nesting depth.  This is
the extraction the specification prescribes for block extents
(spec 4.1: "count nested brace pairs").  Modelled from the spec for
comparison with the lazy scans the code actually uses; the code's
`findMatchingBrace` helper implements this count but is only applied
to `FRAGMENT` blocks. -/
def takeBalanced : Nat → List Char → Option (List Char × List Char)
  | _, [] => none
  | depth, c :: cs =>
    if c = rbrace then
      match depth with
      | 0 => some ([], cs)
      | d + 1 =>
        match takeBalanced d cs with
        | none => none
        | some (pre, rest) => some (c :: pre, rest)
    else if c = lbrace then
      match takeBalanced (depth + 1) cs with
      | none => none
      | some (pre, rest) => some (c :: pre, rest)
    else
      match takeBalanced depth cs with
      | none => none
      | some (pre, rest) => some (c :: pre, rest)

/-- Embeds `OperatorInfo` from `src/models/types.ts` (position and timestamp
fields omitted, see the header note). -/
structure OperatorInfo where
  name : String
  structName : String
  packagePath : String
  filePath : String
  sequence : String
  documentUri : String
  deriving DecidableEq

/-- Embeds `FragmentInfo` from `src/models/types.ts` (line fields omitted). -/
structure FragmentInfo where
  name : String
  documentUri : String
  deriving DecidableEq

/-- Embeds `GoStructInfo` from `src/models/types.ts` (range and timestamp
omitted). -/
structure GoStructInfo where
  name : String
  packagePath : String
  filePath : String
  uri : String
  deriving DecidableEq

/-- Embeds `IndexInfo` from `src/models/types.ts` (version string and
`lastUpdated` timestamp omitted). -/
structure IndexInfo where
  operators : List OperatorInfo
  fragments : List FragmentInfo
  goStructs : List GoStructInfo
  deriving DecidableEq

/-- A workspace document: URI plus full text. -/
structure GorchDocument where
  uri : String
  text : String
  deriving DecidableEq

/-- Embeds `IndexUpdateResult` from `src/models/types.ts` (duration omitted). -/
structure IndexUpdateResult where
  success : Bool
  operatorsCount : Nat
  fragmentsCount : Nat
  goStructsCount : Nat
  errors : List String
  deriving DecidableEq

/-- The captured arguments of one inner `OPERATOR(...)` match in
`IndexService.parseOperators`: file path, struct name, operator name,
sequence digits. -/
structure OperatorArgs where
  filePath : List Char
  structName : List Char
  opName : List Char
  seqDigits : List Char
  deriving DecidableEq

/-- One attempt of the inner `parseOperators` regex
`OPERATOR\s*\(\s*"([^"]+)"\s*,\s*"([^"]+)"\s*,\s*"([^"]+)"\s*,\s*(\d+)\s*\)`
anchored at the head of the input; returns the captures and the rest
of the input after the match. -/
def matchOperator4At (s : List Char) : Option (OperatorArgs × List Char) :=
  match expectLit ("OPERATOR".toList) s with
  | none => none
  | some s =>
    match expectChar '(' (dropWs s) with
    | none => none
    | some s =>
      match expectChar '"' (dropWs s) with
      | none => none
      | some s =>
        match takeUntilChar '"' s with
        | none => none
        | some (fp, s) =>
          if fp = [] then none else
          match expectChar ',' (dropWs s) with
          | none => none
          | some s =>
            match expectChar '"' (dropWs s) with
            | none => none
            | some s =>
              match takeUntilChar '"' s with
              | none => none
              | some (sn, s) =>
                if sn = [] then none else
                match expectChar ',' (dropWs s) with
                | none => none
                | some s =>
                  match expectChar '"' (dropWs s) with
                  | none => none
                  | some s =>
                    match takeUntilChar '"' s with
                    | none => none
                    | some (onm, s) =>
                      if onm = [] then none else
                      match expectChar ',' (dropWs s) with
                      | none => none
                      | some s =>
                        match digitsRun (dropWs s) with
                        | (ds, s) =>
                          if ds = [] then none else
                          match expectChar ')' (dropWs s) with
                          | none => none
                          | some s => some (⟨fp, sn, onm, ds⟩, s)

/-- Global scan with the inner `parseOperators` regex: leftmost
matches, resuming after the end of each match (JavaScript `exec`
with the `g` flag).  Fuelled by the input length; each successful
match consumes at least one character, so the fuel never runs out. -/
def scanOperators4Fuel : Nat → List Char → List OperatorArgs
  | 0, _ => []
  | _, [] => []
  | fuel + 1, c :: cs =>
    match matchOperator4At (c :: cs) with
    | some (args, rest) => args :: scanOperators4Fuel fuel rest
    | none => scanOperators4Fuel fuel cs

/-- All inner `OPERATOR` matches of a register-block body. -/
def scanOperators4 (s : List Char) : List OperatorArgs :=
  scanOperators4Fuel s.length s

/-- One attempt of the outer `parseOperators` regex
`REGISTER\s*\(\s*"([^"]+)"\s*\)\s*\{([\s\S]*?)\}` anchored at the
head of the input: the lazy body group stops at the FIRST close
brace.  Returns (package path, block body, rest after the match). -/
def matchRegisterAt (s : List Char) :
    Option ((List Char × List Char) × List Char) :=
  match expectLit ("REGISTER".toList) s with
  | none => none
  | some s =>
    match expectChar '(' (dropWs s) with
    | none => none
    | some s =>
      match expectChar '"' (dropWs s) with
      | none => none
      | some s =>
        match takeUntilChar '"' s with
        | none => none
        | some (pkg, s) =>
          if pkg = [] then none else
          match expectChar ')' (dropWs s) with
          | none => none
          | some s =>
            match expectChar lbrace (dropWs s) with
            | none => none
            | some s =>
              match takeUntilChar rbrace s with
              | none => none
              | some (body, rest) => some ((pkg, body), rest)

/-- Global scan for `REGISTER` blocks with lazy (first-close-brace)
bodies, as `IndexService.parseOperators` performs it. -/
def scanRegistersFuel : Nat → List Char → List (List Char × List Char)
  | 0, _ => []
  | _, [] => []
  | fuel + 1, c :: cs =>
    match matchRegisterAt (c :: cs) with
    | some (pb, rest) => pb :: scanRegistersFuel fuel rest
    | none => scanRegistersFuel fuel cs

/-- All `(package, body)` pairs recognized by `parseOperators`. -/
def scanRegisters (s : List Char) : List (List Char × List Char) :=
  scanRegistersFuel s.length s

/-- Embeds `IndexService.parseOperators`: collects the operators declared by
4-argument `OPERATOR` entries inside lazily-delimited `REGISTER`
blocks (capture 1 = file path, 2 = struct name, 3 = operator name,
4 = sequence). -/
def parseOperators (d : GorchDocument) : List OperatorInfo :=
  (scanRegisters d.text.toList).flatMap (fun pb =>
    (scanOperators4 pb.2).map (fun a =>
      { name := String.mk a.opName
        structName := String.mk a.structName
        packagePath := String.mk pb.1
        filePath := String.mk a.filePath
        sequence := String.mk a.seqDigits
        documentUri := d.uri }))

/-- Spec-modelled variant of the register-block match in which the
body extends to the brace that BALANCES the opening brace (spec 4.1).
Used only to compare the code's behaviour with the specified one. -/
def matchRegisterBalancedAt (s : List Char) :
    Option ((List Char × List Char) × List Char) :=
  match expectLit ("REGISTER".toList) s with
  | none => none
  | some s =>
    match expectChar '(' (dropWs s) with
    | none => none
    | some s =>
      match expectChar '"' (dropWs s) with
      | none => none
      | some s =>
        match takeUntilChar '"' s with
        | none => none
        | some (pkg, s) =>
          if pkg = [] then none else
          match expectChar ')' (dropWs s) with
          | none => none
          | some s =>
            match expectChar lbrace (dropWs s) with
            | none => none
            | some s =>
              match takeBalanced 0 s with
              | none => none
              | some (body, rest) => some ((pkg, body), rest)

/-- Global scan for brace-balanced `REGISTER` blocks (spec-modelled). -/
def scanRegistersBalancedFuel : Nat → List Char → List (List Char × List Char)
  | 0, _ => []
  | _, [] => []
  | fuel + 1, c :: cs =>
    match matchRegisterBalancedAt (c :: cs) with
    | some (pb, rest) => pb :: scanRegistersBalancedFuel fuel rest
    | none => scanRegistersBalancedFuel fuel cs

/-- Modelled from the spec: the declaration extractor as section 4.1
prescribes it, with brace-balanced block extents; otherwise identical
to `parseOperators`. -/
def parseOperatorsBalanced (d : GorchDocument) : List OperatorInfo :=
  (scanRegistersBalancedFuel d.text.toList.length d.text.toList).flatMap (fun pb =>
    (scanOperators4 pb.2).map (fun a =>
      { name := String.mk a.opName
        structName := String.mk a.structName
        packagePath := String.mk pb.1
        filePath := String.mk a.filePath
        sequence := String.mk a.seqDigits
        documentUri := d.uri }))

/-- One attempt of `GorchDiagnosticProvider.getRegisterBlockRanges`'s
regex `REGISTER\s*\([^)]+\)\s*\{([\s\S]*?)\}` anchored at the head;
returns the rest of the input after the (first-close-brace) match. -/
def matchRegisterRangeAt (s : List Char) : Option (List Char) :=
  match expectLit ("REGISTER".toList) s with
  | none => none
  | some s =>
    match expectChar '(' (dropWs s) with
    | none => none
    | some s =>
      match takeUntilChar ')' s with
      | none => none
      | some (inner, s) =>
        if inner = [] then none else
        match expectChar lbrace (dropWs s) with
        | none => none
        | some s =>
          match takeUntilChar rbrace s with
          | none => none
          | some (_, rest) => some rest

/-- Offset-tracking global scan producing the `(start, end)` offset
pairs of `getRegisterBlockRanges` (a `vscode.Range` is determined by
its start and end offsets through `positionAt`). -/
def scanRegisterRangesFuel : Nat → Nat → List Char → List (Nat × Nat)
  | 0, _, _ => []
  | _, _, [] => []
  | fuel + 1, pos, c :: cs =>
    match matchRegisterRangeAt (c :: cs) with
    | some rest =>
      let len := (c :: cs).length - rest.length
      (pos, pos + len) :: scanRegisterRangesFuel fuel (pos + len) rest
    | none => scanRegisterRangesFuel fuel (pos + 1) cs

/-- Embeds `GorchDiagnosticProvider.getRegisterBlockRanges`. -/
def getRegisterBlockRanges (text : String) : List (Nat × Nat) :=
  scanRegisterRangesFuel text.toList.length 0 text.toList

/-- Embeds `GorchDiagnosticProvider.isInRegisterBlock`: `Range.contains` is
inclusive at both ends. -/
def isInRegisterBlock (pos : Nat) (ranges : List (Nat × Nat)) : Bool :=
  ranges.any (fun r => r.1 ≤ pos && pos ≤ r.2)

/-- One attempt of the `parseFragments` regex
`FRAGMENT\s*\(\s*"([^"]+)"\s*\)\s*\{`; returns the fragment name and
the rest after the opening brace.  (`parseFragments` then calls
`findMatchingBrace` only to compute `endLine`, which never affects
whether the fragment is collected; line bookkeeping is omitted.) -/
def matchFragmentAt (s : List Char) : Option (List Char × List Char) :=
  match expectLit ("FRAGMENT".toList) s with
  | none => none
  | some s =>
    match expectChar '(' (dropWs s) with
    | none => none
    | some s =>
      match expectChar '"' (dropWs s) with
      | none => none
      | some s =>
        match takeUntilChar '"' s with
        | none => none
        | some (nm, s) =>
          if nm = [] then none else
          match expectChar ')' (dropWs s) with
          | none => none
          | some s =>
            match expectChar lbrace (dropWs s) with
            | none => none
            | some rest => some (nm, rest)

/-- Global scan for `FRAGMENT` headers. -/
def scanFragmentsFuel : Nat → List Char → List (List Char)
  | 0, _ => []
  | _, [] => []
  | fuel + 1, c :: cs =>
    match matchFragmentAt (c :: cs) with
    | some (nm, rest) => nm :: scanFragmentsFuel fuel rest
    | none => scanFragmentsFuel fuel cs

/-- Embeds `IndexService.parseFragments`. -/
def parseFragments (d : GorchDocument) : List FragmentInfo :=
  (scanFragmentsFuel d.text.toList.length d.text.toList).map (fun nm =>
    { name := String.mk nm, documentUri := d.uri })

/-- The cleared index: `refreshIndex` empties all three declaration
lists of `this.indexInfo` in place before re-scanning. -/
def clearedIndex : IndexInfo :=
  { operators := [], fragments := [], goStructs := [] }

/-- One iteration of the `updateGorchIndex` loop: the operators and
fragments parsed from one document are pushed onto the live index. -/
def rebuildStep (acc : IndexInfo) (d : GorchDocument) : IndexInfo :=
  { acc with
    operators := acc.operators ++ parseOperators d
    fragments := acc.fragments ++ parseFragments d }

/-- The index a successful `refreshIndex` ends with. -/
def buildIndex (docs : List GorchDocument) (goStructs : List GoStructInfo) :
    IndexInfo :=
  { operators := docs.flatMap parseOperators
    fragments := docs.flatMap parseFragments
    goStructs := goStructs }

/-- The sequence of values of `this.indexInfo` observable at the
asynchronous suspension points inside `refreshIndex`, starting from
an accumulator `acc`: while a document is being opened (awaited) the
index holds the declarations of the documents processed so far; after
the last gorch document it still holds the cleared `goStructs` until
`updateGoIndex`'s awaited scan assigns them; the final element is the
completed index.  `refreshIndex` mutates `this.indexInfo` in place,
so every element of this list is what a concurrent
`getAllOperators`/`getAllFragments`/`getAllGoStructs` call returns at
that point. -/
def rebuildStatesFrom (acc : IndexInfo) :
    List GorchDocument → List GoStructInfo → List IndexInfo
  | [], gs => [acc, { acc with goStructs := gs }]
  | d :: ds, gs => acc :: rebuildStatesFrom (rebuildStep acc d) ds gs

/-- Observable index states of a full rebuild (which first clears the
index in place). -/
def rebuildStates (docs : List GorchDocument) (goStructs : List GoStructInfo) :
    List IndexInfo :=
  rebuildStatesFrom clearedIndex docs goStructs

/-- Embeds `IndexService.getAllOperators` (the defensive copy `[...]` returns
a list equal to the field). -/
def getAllOperators (info : IndexInfo) : List OperatorInfo :=
  info.operators

/-- Embeds `IndexService.getAllFragments`. -/
def getAllFragments (info : IndexInfo) : List FragmentInfo :=
  info.fragments

/-- Embeds `IndexService.getAllGoStructs`. -/
def getAllGoStructs (info : IndexInfo) : List GoStructInfo :=
  info.goStructs

/-- Embeds `IndexService.findOperatorByName`: `Array.prototype.find`, the
first element in accumulation order. -/
def findOperatorByName (info : IndexInfo) (name : String) : Option OperatorInfo :=
  info.operators.find? (fun op => decide (op.name = name))

/-- Embeds `IndexService.findFragmentByName`. -/
def findFragmentByName (info : IndexInfo) (name : String) : Option FragmentInfo :=
  info.fragments.find? (fun frag => decide (frag.name = name))

/-- Embeds `IndexService.findGoStructByName`. -/
def findGoStructByName (info : IndexInfo) (name : String) : Option GoStructInfo :=
  info.goStructs.find? (fun st => decide (st.name = name))

/-- Mutable state of the `IndexService` singleton.  `timers` counts
the outstanding `setTimeout` callbacks scheduled by `onFileChanged`
that have not fired yet (the source keeps no such variable — each
call schedules a fresh anonymous timer). -/
structure ServiceState where
  indexInfo : IndexInfo
  updateInProgress : Bool
  pendingUpdates : List String
  timers : Nat
  deriving DecidableEq

/-- The result `refreshIndex` returns when a rebuild is already in
progress. -/
def busyResult : IndexUpdateResult :=
  { success := false
    operatorsCount := 0
    fragmentsCount := 0
    goStructsCount := 0
    errors := ["Update already in progress"] }

/-- Embeds `IndexService.refreshIndex`, end to end: the busy branch returns
immediately without touching the state; otherwise the index is
rebuilt from the current documents and Go structs and the pending set
is cleared in the `finally` block.  (Per-document read failures are
external I/O and are modelled as absent, so the error list of a
successful rebuild is empty; the intermediate in-place states of the
non-busy branch are exposed separately by `rebuildStates`.) -/
def refreshIndex (s : ServiceState) (docs : List GorchDocument)
    (goStructs : List GoStructInfo) : ServiceState × IndexUpdateResult :=
  if s.updateInProgress then (s, busyResult)
  else
    let idx := buildIndex docs goStructs
    ({ s with indexInfo := idx, updateInProgress := false, pendingUpdates := [] },
     { success := true
       operatorsCount := idx.operators.length
       fragmentsCount := idx.fragments.length
       goStructsCount := idx.goStructs.length
       errors := [] })

/-- Embeds `IndexService.onFileChanged`: the URI is added to the pending
set (JavaScript `Set.add`: inserted once, in insertion order), and a
new one-second timer is scheduled unconditionally by `setTimeout`. -/
def onFileChanged (s : ServiceState) (uri : String) : ServiceState :=
  { s with
    pendingUpdates :=
      if uri ∈ s.pendingUpdates then s.pendingUpdates
      else s.pendingUpdates ++ [uri]
    timers := s.timers + 1 }

/-- The callback of one `onFileChanged` timer firing: the timer is
consumed and, when no update is in progress and the pending set is
non-empty, `refreshIndex` runs (the model runs it synchronously). -/
def fireTimer (s : ServiceState) (docs : List GorchDocument)
    (goStructs : List GoStructInfo) : ServiceState :=
  let s1 : ServiceState := { s with timers := s.timers - 1 }
  if s.updateInProgress = false ∧ s.pendingUpdates ≠ [] then
    (refreshIndex s1 docs goStructs).1
  else s1

/-- JavaScript `String.prototype.trim` on the whitespace characters
that occur in practice. -/
def jsTrim (s : String) : String :=
  String.mk ((((s.toList.dropWhile (fun c => isWsChar c)).reverse).dropWhile
    (fun c => isWsChar c)).reverse)

/-- Embeds `GorchDiagnosticProvider.getFileNameFromUri`:
`fsPath.split('/').pop() || 'unknown'` (the `vscode.Uri` round trip is
modelled as the identity on the path part; a URI whose last segment is
empty yields the fallback). -/
def lastSlashSplit : List Char → Option (List Char × List Char)
  | [] => none
  | c :: cs =>
    match lastSlashSplit cs with
    | some (pre, post) => some (c :: pre, post)
    | none => if c = '/' then some ([], cs) else none

/-- See `lastSlashSplit`. -/
def getFileNameFromUri (uri : String) : String :=
  let seg :=
    match lastSlashSplit uri.toList with
    | some (_, post) => post
    | none => uri.toList
  if seg = [] then "unknown" else String.mk seg

/-- A diagnostic as the provider constructs it: the operator record
whose range it is attached to (`findOperatorRange` always succeeds on
indexed operators, see the header note), the `diagnostic.code`, the
severity, and the message string. -/
structure GorchDiagnostic where
  atOp : OperatorInfo
  code : String
  severity : String
  message : String
  deriving DecidableEq

/-- One insertion into an insertion-ordered JavaScript `Map` of
groups: `if (!m.has(k)) m.set(k, []); m.get(k).push(v)`. -/
def insertGrouped {κ : Type} [DecidableEq κ] (k : κ) (v : OperatorInfo) :
    List (κ × List OperatorInfo) → List (κ × List OperatorInfo)
  | [] => [(k, [v])]
  | (k', g) :: rest =>
    if k' = k then (k', g ++ [v]) :: rest
    else (k', g) :: insertGrouped k v rest

/-- One step of the grouping loop: operators whose key is absent
(`none`) are skipped. -/
def groupStep {κ : Type} [DecidableEq κ] (key : OperatorInfo → Option κ)
    (m : List (κ × List OperatorInfo)) (op : OperatorInfo) :
    List (κ × List OperatorInfo) :=
  match key op with
  | some k => insertGrouped k op m
  | none => m

/-- The grouping loop shared by the two uniqueness checks. -/
def groupBy {κ : Type} [DecidableEq κ] (key : OperatorInfo → Option κ)
    (ops : List OperatorInfo) : List (κ × List OperatorInfo) :=
  ops.foldl (groupStep key) []

/-- The canonical group of a key: all operators carrying it, in input
order (statement vocabulary for the theorems below). -/
def keyGroup {κ : Type} [DecidableEq κ] (key : OperatorInfo → Option κ)
    (ops : List OperatorInfo) (k : κ) : List OperatorInfo :=
  ops.filter (fun op => decide (key op = some k))

/-- An operator the checks must flag in the target document: it has a
key, its key's workspace-wide group has at least two members, and it
lives in the target document (statement vocabulary). -/
def conflictBool {κ : Type} [DecidableEq κ] (key : OperatorInfo → Option κ)
    (ops : List OperatorInfo) (docUri : String) (op : OperatorInfo) : Bool :=
  match key op with
  | some k =>
    decide (1 < (keyGroup key ops k).length) && decide (op.documentUri = docUri)
  | none => false

/-- The grouping key of `checkOperatorNameUniqueness`:
`if (op.name && op.name.trim())` — names that are empty or blank
after trimming are not grouped at all. -/
def nameKey (op : OperatorInfo) : Option String :=
  if op.name = "" then none
  else if jsTrim op.name = "" then none
  else some op.name

/-- One entry of the duplicate-name message:
`${o.packagePath}/${o.filePath} (${fileName})`. -/
def nameDupEntry (o : OperatorInfo) : String :=
  o.packagePath ++ "/" ++ o.filePath ++ " (" ++ getFileNameFromUri o.documentUri ++ ")"

/-- The duplicate-name message, enumerating every member of the
conflicting group. -/
def nameDupMessage (name : String) (g : List OperatorInfo) : String :=
  "Duplicate operator name '" ++ name ++ "'. Found in: " ++
    String.intercalate ", " (g.map nameDupEntry)

/-- Embeds `GorchDiagnosticProvider.checkOperatorNameUniqueness`: group all
operators workspace-wide by (non-blank) name; for every group with
more than one member emit one Error at each member that lives in the
target document. -/
def checkOperatorNameUniqueness (operators : List OperatorInfo)
    (docUri : String) : List GorchDiagnostic :=
  (groupBy nameKey operators).flatMap (fun kg =>
    if 1 < kg.2.length then
      (kg.2.filter (fun op => decide (op.documentUri = docUri))).map (fun op =>
        { atOp := op
          code := "duplicate-name"
          severity := "Error"
          message := nameDupMessage kg.1 kg.2 })
    else [])

/-- Digit run to number. -/
def digitsToNat (ds : List Char) : Nat :=
  ds.foldl (fun n c => n * 10 + (c.toNat - '0'.toNat)) 0

/-- JavaScript `parseInt` restricted to the inputs that occur here:
leading whitespace skipped, optional sign, then a maximal run of
decimal digits; `none` models `NaN` (no leading digit).  The hex
`0x` prefix handling of `parseInt` is omitted: sequences come from
the regex capture `(\d+)` and are plain digit strings. -/
def jsParseInt (s : String) : Option Int :=
  match dropWs s.toList with
  | '-' :: rest =>
    match digitsRun rest with
    | ([], _) => none
    | (ds, _) => some (-(digitsToNat ds : Int))
  | '+' :: rest =>
    match digitsRun rest with
    | ([], _) => none
    | (ds, _) => some (digitsToNat ds)
  | cs =>
    match digitsRun cs with
    | ([], _) => none
    | (ds, _) => some (digitsToNat ds)

/-- The grouping key of `checkOperatorSequenceUniqueness`:
`const seq = parseInt(op.sequence || '0'); if (seq > 0) …` — only
operators whose parsed sequence is strictly positive are grouped, so
the sentinel value `0` (and any unparseable sequence) never takes
part in duplicate detection. -/
def seqKey (op : OperatorInfo) : Option Int :=
  match jsParseInt (if op.sequence = "" then "0" else op.sequence) with
  | some v => if 0 < v then some v else none
  | none => none

/-- One entry of the duplicate-sequence message:
`${o.name} (${fileName})`. -/
def seqDupEntry (o : OperatorInfo) : String :=
  o.name ++ " (" ++ getFileNameFromUri o.documentUri ++ ")"

/-- The duplicate-sequence message. -/
def seqDupMessage (v : Int) (g : List OperatorInfo) : String :=
  "Duplicate operator sequence " ++ toString v ++ ". Found in: " ++
    String.intercalate ", " (g.map seqDupEntry)

/-- Embeds `GorchDiagnosticProvider.checkOperatorSequenceUniqueness`. -/
def checkOperatorSequenceUniqueness (operators : List OperatorInfo)
    (docUri : String) : List GorchDiagnostic :=
  (groupBy seqKey operators).flatMap (fun kg =>
    if 1 < kg.2.length then
      (kg.2.filter (fun op => decide (op.documentUri = docUri))).map (fun op =>
        { atOp := op
          code := "duplicate-sequence"
          severity := "Error"
          message := seqDupMessage kg.1 kg.2 })
    else [])

/-- The common shape of the two uniqueness checks (statement and
proof vocabulary): group, keep groups with more than one member, emit
one diagnostic per member in the target document.  Both checks are
definitionally instances of this shape. -/
def dupCheckShape {κ : Type} [DecidableEq κ] (key : OperatorInfo → Option κ)
    (mkMsg : κ → List OperatorInfo → String) (code : String)
    (ops : List OperatorInfo) (docUri : String) : List GorchDiagnostic :=
  (groupBy key ops).flatMap (fun kg =>
    if 1 < kg.2.length then
      (kg.2.filter (fun op => decide (op.documentUri = docUri))).map (fun op =>
        { atOp := op
          code := code
          severity := "Error"
          message := mkMsg kg.1 kg.2 })
    else [])

/-- The message the duplicate-name check canonically attaches to a
diagnostic at `op` (statement vocabulary): it enumerates the whole
workspace-wide group of `op.name`. -/
def nameCanonicalMessage (ops : List OperatorInfo) (op : OperatorInfo) : String :=
  nameDupMessage op.name (keyGroup nameKey ops op.name)

/-- The message the duplicate-sequence check canonically attaches to
a diagnostic at `op` (statement vocabulary). -/
def seqCanonicalMessage (ops : List OperatorInfo) (op : OperatorInfo) : String :=
  match seqKey op with
  | some v => seqDupMessage v (keyGroup seqKey ops v)
  | none => ""

/-- A resolved definition location (a `vscode.Location`; the range
inside the target file is irrelevant to the claims). -/
structure GoLocation where
  uri : String
  deriving DecidableEq

/-- The environment a resolution query runs against: the response of
the optional Go-extension integration for the queried name (`none`
models the extension being absent or its lookup throwing — both are
caught and fall through), the current index snapshot, and the structs
a live on-demand workspace scan would find. -/
structure ResolveEnv where
  goExt : Option (List GoLocation)
  index : IndexInfo
  scanStructs : List GoStructInfo

/-- Embeds `GoUtils.validateGoStruct` (called without the optional package
filter, as both providers do): first the Go-extension lookup, then a
live scan of the workspace's Go files. -/
def validateGoStruct (goExt : Option (List GoLocation))
    (allStructs : List GoStructInfo) (structName : String) : Option GoLocation :=
  match goExt with
  | some (l :: _) => some l
  | _ =>
    (allStructs.find? (fun st => decide (st.name = structName))).map
      (fun st => { uri := st.uri })

/-- Embeds `EnhancedDefinitionProvider.handleOperatorDefinition`: tiered
lookup of a struct name — Go extension, then index snapshot, then
`validateGoStruct`'s live scan; the first non-empty result wins. -/
def handleOperatorDefinition (env : ResolveEnv) (structName : String) :
    Option GoLocation :=
  match env.goExt with
  | some (l :: _) => some l
  | _ =>
    match findGoStructByName env.index structName with
    | some st => some { uri := st.uri }
    | none => validateGoStruct env.goExt env.scanStructs structName

/-- Embeds `EnhancedDefinitionProvider.handleUnfoldDefinition` (the cursor
has already been classified as sitting on the fragment name). -/
def handleUnfoldDefinition (env : ResolveEnv) (fragName : String) :
    Option GoLocation :=
  (findFragmentByName env.index fragName).map (fun f => { uri := f.documentUri })

/-- Embeds `EnhancedDefinitionProvider.handleOperatorCallDefinition`: the
operator is looked up in the index; its struct then goes through the
index and then `validateGoStruct`. -/
def handleOperatorCallDefinition (env : ResolveEnv) (word : String) :
    Option GoLocation :=
  match findOperatorByName env.index word with
  | none => none
  | some op =>
    match findGoStructByName env.index op.structName with
    | some st => some { uri := st.uri }
    | none => validateGoStruct env.goExt env.scanStructs op.structName

/-- The outcome of step 1 of `provideDefinition` (context
classification): which construct the cursor sits on, and the name to
resolve. -/
inductive CursorClass where
  | structArg (structName : String)
  | fragmentArg (fragName : String)
  | operatorCall (word : String)
  deriving DecidableEq

/-- Embeds `EnhancedDefinitionProvider.provideDefinition` after context
classification: a failed classification (no word at the cursor, or no
recognized construct) yields no definition; otherwise the matching
handler runs. -/
def provideDefinition (cls : Option CursorClass) (env : ResolveEnv) :
    Option GoLocation :=
  match cls with
  | none => none
  | some (CursorClass.structArg n) => handleOperatorDefinition env n
  | some (CursorClass.fragmentArg n) => handleUnfoldDefinition env n
  | some (CursorClass.operatorCall w) => handleOperatorCallDefinition env w

/-- Embeds `path.dirname` for the normalized slash-separated paths that occur
here: everything before the last `/` (`.` when there is no slash, `/`
when the last slash is leading). -/
def jsDirname (p : List Char) : List Char :=
  match lastSlashSplit p with
  | none => ['.']
  | some ([], _) => ['/']
  | some (pre, _) => pre

/-- Embeds `path.basename` for the same class of paths: everything after the
last `/`. -/
def jsBasename (p : List Char) : List Char :=
  match lastSlashSplit p with
  | none => p
  | some (_, post) => post

/-- One attempt of `GoUtils.extractPackagePath`'s marker regex
`^package\s+(\w+)` anchored at a line start (`\s+` may span line
breaks, `m` flag handled by the caller). -/
def matchPackageAt (s : List Char) : Option (List Char) :=
  match expectLit ("package".toList) s with
  | none => none
  | some s =>
    match s with
    | [] => none
    | c :: rest =>
      if isWsChar c then
        match wordRun (dropWs rest) with
        | ([], _) => none
        | (w, _) => some w
      else none

/-- Scan for the first line-anchored package marker (the `m` flag lets
`^` match after every line terminator). -/
def findPackageIdAux : Bool → List Char → Option (List Char)
  | _, [] => none
  | atStart, c :: cs =>
    match (if atStart then matchPackageAt (c :: cs) else none) with
    | some w => some w
    | none => findPackageIdAux (isNlChar c) cs

/-- First package-marker identifier of a Go file, if any. -/
def findPackageId (content : List Char) : Option (List Char) :=
  findPackageIdAux true content

/-- Embeds `GoUtils.extractPackagePath`: the marker identifier when present
and not `main`; `path.dirname(filePath)` (the full enclosing directory
path) when the marker is `main`; `path.basename(path.dirname(filePath))`
(the enclosing directory's bare name) when there is no marker. -/
def extractPackagePath (content : String) (filePath : String) : String :=
  match findPackageId content.toList with
  | some w =>
    if String.mk w = "main" then String.mk (jsDirname filePath.toList)
    else String.mk w
  | none => String.mk (jsBasename (jsDirname filePath.toList))

/-- Embeds `OperatorMatch` from `src/models/types.ts` (the character-offset
fields, which no claim depends on, are omitted). -/
structure OperatorMatch where
  packagePath : String
  structName : String
  operatorName : String
  sequence : String
  deriving DecidableEq

/-- The mandatory suffix `,\s*(\d+)\s*\)` of the operator-line regex. -/
def matchOperatorTail (s : List Char) : Option (List Char × List Char) :=
  match expectChar ',' s with
  | none => none
  | some s =>
    match digitsRun (dropWs s) with
    | ([], _) => none
    | (ds, s) =>
      match expectChar ')' (dropWs s) with
      | none => none
      | some rest => some (ds, rest)

/-- The optional third-argument group `(?:,\s*"(.*?)"\s*)?` of the
operator-line regex; returns the capture and the rest after the
group's trailing `\s*`. -/
def matchOperatorOpt3 (s : List Char) : Option (List Char × List Char) :=
  match expectChar ',' s with
  | none => none
  | some s =>
    match expectChar '"' (dropWs s) with
    | none => none
    | some s =>
      match takeUntilCharNoNl '"' s with
      | none => none
      | some (t, s) => some (t, dropWs s)

/-- Build the reduced `OperatorMatch` record:
`operatorName = match[3] || structName`, so a missing or empty third
capture falls back to the struct name. -/
def mkOperatorMatch (p sn : List Char) (t? : Option (List Char))
    (ds : List Char) : OperatorMatch :=
  { packagePath := String.mk p
    structName := String.mk sn
    operatorName :=
      match t? with
      | none => String.mk sn
      | some t => if t = [] then String.mk sn else String.mk t
    sequence := String.mk ds }

/-- One attempt of the `parseOperatorLine` regex
`OPERATOR\s*\(\s*"(.*?)"\s*,\s*"(.*?)"\s*(?:,\s*"(.*?)"\s*)?,\s*(\d+)\s*\)`
anchored at the head: the optional group is tried first and the
engine backtracks to the three-argument reading when the remainder
fails after it. -/
def matchOperatorLineAt (s : List Char) : Option OperatorMatch :=
  match expectLit ("OPERATOR".toList) s with
  | none => none
  | some s =>
  match expectChar '(' (dropWs s) with
  | none => none
  | some s =>
  match expectChar '"' (dropWs s) with
  | none => none
  | some s =>
  match takeUntilCharNoNl '"' s with
  | none => none
  | some (p, s) =>
  match expectChar ',' (dropWs s) with
  | none => none
  | some s =>
  match expectChar '"' (dropWs s) with
  | none => none
  | some s =>
  match takeUntilCharNoNl '"' s with
  | none => none
  | some (sn, s0) =>
  let s := dropWs s0
  match
    (match matchOperatorOpt3 s with
     | some (t, s2) => (matchOperatorTail s2).map (fun r => (t, r.1))
     | none => none) with
  | some (t, ds) => some (mkOperatorMatch p sn (some t) ds)
  | none =>
    match matchOperatorTail s with
    | some (ds, _) => some (mkOperatorMatch p sn none ds)
    | none => none

/-- Leftmost match of the operator-line regex (`String.match` without
the `g` flag). -/
def findOperatorLineMatch : List Char → Option OperatorMatch
  | [] => none
  | c :: cs =>
    match matchOperatorLineAt (c :: cs) with
    | some m => some m
    | none => findOperatorLineMatch cs

/-- Embeds `parseOperatorLine` from `src/services/parser.ts`: extracts the
(3- or 4-argument) `OPERATOR` directive of one line. -/
def parseOperatorLine (lineText : String) : Option OperatorMatch :=
  findOperatorLineMatch lineText.toList

/-- Embeds `l₁` is an initial segment of `l₂` (statement vocabulary for the
rebuild observations). -/
def isInitSeg {α : Type} (l₁ l₂ : List α) : Prop :=
  ∃ t, l₁ ++ t = l₂

/-- A capture argument the operator-line regex can carry: no quote
(which would terminate the capture early) and no line terminator
(which `.` does not match). -/
def goodArg (cs : List Char) : Prop :=
  ∀ c ∈ cs, c ≠ '"' ∧ isNlChar c = false

/-- A non-degenerate sequence argument: decimal digits only. -/
def allDigits (cs : List Char) : Prop :=
  ∀ c ∈ cs, isDigitChar c = true

/-- The text of a three-argument `OPERATOR` declaration
`OPERATOR("p","s",q)` with no inner spacing. -/
def line3 (p s q : List Char) : List Char :=
  "OPERATOR".toList ++ '(' :: '"' :: (p ++ '"' :: ',' :: '"' ::
    (s ++ '"' :: ',' :: (q ++ [')'])))

/-- The text of a four-argument `OPERATOR` declaration
`OPERATOR("p","s","t",q)` with no inner spacing. -/
def line4 (p s t q : List Char) : List Char :=
  "OPERATOR".toList ++ '(' :: '"' :: (p ++ '"' :: ',' :: '"' ::
    (s ++ '"' :: ',' :: '"' :: (t ++ '"' :: ',' :: (q ++ [')']))))

/-- Test document: a registration block containing a nested brace
pair followed by an `OPERATOR` declaration, then the block's real
closing brace. -/
def registerNestedText : String :=
  "REGISTER(\"p\") \x7b SWITCH \x7b \x7d OPERATOR(\"f\",\"S\",\"a\",1) \x7d"

/-- See `registerNestedText`. -/
def registerNestedDoc : GorchDocument :=
  { uri := "file:///a.gorch", text := registerNestedText }

/-- The operator `registerNestedText` declares after its nested brace
pair. -/
def nestedOp : OperatorInfo :=
  { name := "a", structName := "S", packagePath := "p", filePath := "f",
    sequence := "1", documentUri := "file:///a.gorch" }

/-- Test document whose only `OPERATOR` entry uses the 3-argument
form. -/
def threeArgDoc : GorchDocument :=
  { uri := "file:///a.gorch",
    text := "REGISTER(\"p\")\x7bOPERATOR(\"ops\",\"Fetcher\",1)\x7d" }

/-- Test document containing a 3-argument and a 4-argument entry in
one registration block. -/
def mixedArgsDoc : GorchDocument :=
  { uri := "file:///a.gorch",
    text := "REGISTER(\"p\")\x7b OPERATOR(\"ops\",\"Fetcher\",1) OPERATOR(\"ops\",\"Loader\",\"loader\",2) \x7d" }

/-- The operator of `mixedArgsDoc`'s 4-argument entry. -/
def loaderOp : OperatorInfo :=
  { name := "loader", structName := "Loader", packagePath := "p",
    filePath := "ops", sequence := "2", documentUri := "file:///a.gorch" }

/-- Test document with one operator declaration. -/
def singleOpDoc : GorchDocument :=
  { uri := "file:///a.gorch",
    text := "REGISTER(\"p\")\x7bOPERATOR(\"f\",\"S\",\"a\",1)\x7d" }

/-! ## Scanner lemmas -/

theorem takeUntilChar_not_stop (stop : Char) :
    ∀ s pre rest, takeUntilChar stop s = some (pre, rest) → stop ∉ pre := by
  intro s
  induction s with
  | nil => intro pre rest h; simp [takeUntilChar] at h
  | cons c cs ih =>
    intro pre rest h
    by_cases hc : c = stop
    · simp [takeUntilChar, hc] at h
      rcases h with ⟨h1, _⟩
      subst h1
      simp
    · simp only [takeUntilChar, if_neg hc] at h
      cases htail : takeUntilChar stop cs with
      | none => rw [htail] at h; simp at h
      | some pr =>
        rw [htail] at h
        rcases pr with ⟨pre', rest'⟩
        simp at h
        rcases h with ⟨h1, _⟩
        have hrec := ih pre' rest' htail
        rw [← h1]
        simp only [List.mem_cons, not_or]
        exact ⟨fun he => hc he.symm, hrec⟩

theorem matchRegisterAt_body_no_rbrace (s : List Char) (pkg body rest : List Char)
    (h : matchRegisterAt s = some ((pkg, body), rest)) : rbrace ∉ body := by
  unfold matchRegisterAt at h
  repeat' split at h
  all_goals simp_all
  rename_i hbody
  exact takeUntilChar_not_stop rbrace _ body rest hbody

theorem scanRegistersFuel_body_no_rbrace :
    ∀ (fuel : Nat) (s : List Char) (pkg body : List Char),
      (pkg, body) ∈ scanRegistersFuel fuel s → rbrace ∉ body := by
  intro fuel
  induction fuel with
  | zero => intro s pkg body h; simp [scanRegistersFuel] at h
  | succ n ih =>
    intro s pkg body h
    cases s with
    | nil => simp [scanRegistersFuel] at h
    | cons c cs =>
      rw [scanRegistersFuel] at h
      cases hm : matchRegisterAt (c :: cs) with
      | some pr =>
        rw [hm] at h
        rcases pr with ⟨⟨pk, bd⟩, rest⟩
        simp at h
        rcases h with h | h
        · rcases h with ⟨_, h2⟩
          have := matchRegisterAt_body_no_rbrace (c :: cs) pk bd rest hm
          rw [h2]; exact this
        · exact ih rest pkg body h
      | none =>
        rw [hm] at h
        exact ih cs pkg body h

/-- C1 (amended): the registration-block extents used by the
declaration extractor (`parseOperators`) and by the
unregistered-operator check (`getRegisterBlockRanges`) are computed
by matching the FIRST closing brace (lazy regex body), not by a
brace-balancing scan: every recognized block body contains no close
brace at all, so for a registration block containing a nested brace
pair, declarations after the nested closing brace fall OUTSIDE the
block's extent — `parseOperators` does not collect them (while the
spec's brace-balanced extraction would). -/
theorem registerBlock_extent_is_first_close_brace :
    (∀ (text : List Char) (pkg body : List Char),
        (pkg, body) ∈ scanRegisters text → rbrace ∉ body) ∧
    parseOperators registerNestedDoc = [] ∧
    parseOperatorsBalanced registerNestedDoc = [nestedOp] := by
  refine ⟨?_, by decide, by decide⟩
  intro text pkg body h
  exact scanRegistersFuel_body_no_rbrace _ _ _ _ h

/-- C1 (witness): the single block body recognized inside
`registerNestedText` stops before the nested close brace and hence
contains no close brace. -/
theorem registerBlock_extent_is_first_close_brace_witness :
    rbrace ∉ (" SWITCH \x7b ".toList) :=
  registerBlock_extent_is_first_close_brace.1 registerNestedText.toList
    ("p".toList) (" SWITCH \x7b ".toList) (by decide)

/-- C1 (counterexample): in `registerNestedDoc` the `OPERATOR`
declaration that follows the nested closing brace (the text starting
at offset 27 spells `OPERATOR`) is NOT inside the computed block
extent: `parseOperators` collects nothing (the brace-balanced
extraction of the spec would collect it), and the
`getRegisterBlockRanges` extent used by the unregistered-operator
check ends at offset 26 — the first close brace — leaving the
declaration site outside every registration-block range. -/
theorem registerBlock_nested_decl_outside_extent :
    parseOperators registerNestedDoc = [] ∧
    parseOperatorsBalanced registerNestedDoc = [nestedOp] ∧
    getRegisterBlockRanges registerNestedText = [(0, 26)] ∧
    isInRegisterBlock 27 (getRegisterBlockRanges registerNestedText) = false ∧
    (registerNestedText.toList.drop 27).take 8 = "OPERATOR".toList := by
  decide

/-! ## Rebuild observation lemmas -/

theorem rebuildStatesFrom_initSeg :
    ∀ (docs : List GorchDocument) (gs : List GoStructInfo) (acc st : IndexInfo),
      st ∈ rebuildStatesFrom acc docs gs →
      isInitSeg st.operators (acc.operators ++ docs.flatMap parseOperators) ∧
      isInitSeg st.fragments (acc.fragments ++ docs.flatMap parseFragments) ∧
      (st.goStructs = acc.goStructs ∨ st.goStructs = gs) := by
  intro docs
  induction docs with
  | nil =>
    intro gs acc st h
    simp only [rebuildStatesFrom, List.mem_cons, List.mem_singleton,
      List.not_mem_nil, or_false] at h
    rcases h with h | h
    · subst h
      exact ⟨⟨[], by simp⟩, ⟨[], by simp⟩, Or.inl rfl⟩
    · subst h
      exact ⟨⟨[], by simp⟩, ⟨[], by simp⟩, Or.inr rfl⟩
  | cons d ds ih =>
    intro gs acc st h
    simp only [rebuildStatesFrom, List.mem_cons] at h
    rcases h with h | h
    · subst h
      exact ⟨⟨(d :: ds).flatMap parseOperators, rfl⟩,
             ⟨(d :: ds).flatMap parseFragments, rfl⟩, Or.inl rfl⟩
    · have hrec := ih gs (rebuildStep acc d) st h
      refine ⟨?_, ?_, ?_⟩
      · have h1 := hrec.1
        simp only [rebuildStep] at h1
        simpa [List.append_assoc] using h1
      · have h1 := hrec.2.1
        simp only [rebuildStep] at h1
        simpa [List.append_assoc] using h1
      · have h1 := hrec.2.2
        simpa [rebuildStep] using h1

/-- C2 (amended): `refreshIndex` does NOT publish the new snapshot by
an atomic swap — it clears `this.indexInfo` in place and appends to
it per document across its asynchronous suspension points, so a
concurrent query can observe a partial state.  What does hold of
every observable intermediate state: its operator and fragment lists
are initial segments of the final index's lists, and its Go-struct
list is either still empty or the final one. -/
theorem rebuild_observation_initial_segment (docs : List GorchDocument)
    (gs : List GoStructInfo) (st : IndexInfo) (h : st ∈ rebuildStates docs gs) :
    isInitSeg (getAllOperators st) (getAllOperators (buildIndex docs gs)) ∧
    isInitSeg (getAllFragments st) (getAllFragments (buildIndex docs gs)) ∧
    (getAllGoStructs st = [] ∨ getAllGoStructs st = gs) := by
  have hrec := rebuildStatesFrom_initSeg docs gs clearedIndex st h
  simpa [clearedIndex, buildIndex, getAllOperators, getAllFragments,
    getAllGoStructs] using hrec

/-- C2 (witness): the cleared index is observable during the rebuild
of `singleOpDoc` and its lists are initial segments of the final
ones. -/
theorem rebuild_observation_initial_segment_witness :
    isInitSeg (getAllOperators clearedIndex)
      (getAllOperators (buildIndex [singleOpDoc] [])) ∧
    isInitSeg (getAllFragments clearedIndex)
      (getAllFragments (buildIndex [singleOpDoc] [])) ∧
    (getAllGoStructs clearedIndex = [] ∨ getAllGoStructs clearedIndex = []) :=
  rebuild_observation_initial_segment [singleOpDoc] [] clearedIndex (by decide)

/-- C2 (counterexample): take the prior snapshot to be the complete
snapshot of an identical earlier rebuild, `buildIndex [singleOpDoc] []`.
During the next rebuild the in-place-cleared index is observable at a
suspension point, and it differs from BOTH the prior complete
snapshot and the new complete snapshot (they are equal and
non-empty): a concurrent `getAllOperators` sees a torn intermediate
state, refuting the atomic-reference-swap claim. -/
theorem rebuild_cleared_state_observable :
    clearedIndex ∈ rebuildStates [singleOpDoc] [] ∧
    getAllOperators (buildIndex [singleOpDoc] []) ≠ [] ∧
    clearedIndex ≠ buildIndex [singleOpDoc] [] := by
  decide

/-- C5: a `refreshIndex` call arriving while `updateInProgress` is
set returns immediately with `success = false` and exactly one error
entry, and leaves the service state — in particular the index
snapshot consumers read — unchanged. -/
theorem refreshIndex_busy_rejected (s : ServiceState)
    (docs : List GorchDocument) (gs : List GoStructInfo)
    (h : s.updateInProgress = true) :
    (refreshIndex s docs gs).1 = s ∧
    (refreshIndex s docs gs).2.success = false ∧
    (refreshIndex s docs gs).2.errors.length = 1 := by
  simp [refreshIndex, h, busyResult]

/-- C5 (witness). -/
theorem refreshIndex_busy_rejected_witness :
    (refreshIndex ⟨clearedIndex, true, [], 0⟩ [] []).1 = ⟨clearedIndex, true, [], 0⟩ ∧
    (refreshIndex ⟨clearedIndex, true, [], 0⟩ [] []).2.success = false ∧
    (refreshIndex ⟨clearedIndex, true, [], 0⟩ [] []).2.errors.length = 1 :=
  refreshIndex_busy_rejected ⟨clearedIndex, true, [], 0⟩ [] [] rfl

/-! ## Debounce lemmas -/

theorem foldl_onFileChanged_timers :
    ∀ (us : List String) (s : ServiceState),
      (us.foldl onFileChanged s).timers = s.timers + us.length := by
  intro us
  induction us with
  | nil => intro s; simp
  | cons u rest ih =>
    intro s
    simp only [List.foldl_cons, ih, onFileChanged, List.length_cons]
    omega

theorem foldl_onFileChanged_inProgress :
    ∀ (us : List String) (s : ServiceState),
      (us.foldl onFileChanged s).updateInProgress = s.updateInProgress := by
  intro us
  induction us with
  | nil => intro s; rfl
  | cons u rest ih => intro s; simp only [List.foldl_cons, ih, onFileChanged]

theorem onFileChanged_pending_ne (s : ServiceState) (u : String) :
    (onFileChanged s u).pendingUpdates ≠ [] := by
  by_cases h : u ∈ s.pendingUpdates
  · simp only [onFileChanged, if_pos h]
    intro he
    rw [he] at h
    simp at h
  · simp [onFileChanged, if_neg h]

theorem foldl_onFileChanged_pending_ne :
    ∀ (us : List String) (s : ServiceState), s.pendingUpdates ≠ [] →
      (us.foldl onFileChanged s).pendingUpdates ≠ [] := by
  intro us
  induction us with
  | nil => intro s h; exact h
  | cons u rest ih =>
    intro s _
    exact ih (onFileChanged s u) (onFileChanged_pending_ne s u)

/-- C6 (amended): every file-change notification schedules its OWN
fixed-delay timer (`setTimeout` runs unconditionally), so a burst of
n notifications creates n outstanding timers — not at most one.  The
guards inside the callback still make the burst trigger exactly one
rebuild: after the burst the pending set is non-empty, the first
timer to fire runs `refreshIndex` over the whole pending set and
clears it, and a subsequent timer firing with the pending set empty
only consumes itself without touching the index or the pending set. -/
theorem debounce_burst_one_rebuild (s : ServiceState) (us : List String)
    (docs : List GorchDocument) (gs : List GoStructInfo)
    (h1 : s.updateInProgress = false) (h2 : us ≠ []) :
    ((us.foldl onFileChanged s).timers = s.timers + us.length) ∧
    ((us.foldl onFileChanged s).pendingUpdates ≠ []) ∧
    ((fireTimer (us.foldl onFileChanged s) docs gs).indexInfo = buildIndex docs gs) ∧
    ((fireTimer (us.foldl onFileChanged s) docs gs).pendingUpdates = []) ∧
    (fireTimer (fireTimer (us.foldl onFileChanged s) docs gs) docs gs =
      { fireTimer (us.foldl onFileChanged s) docs gs with
          timers := (fireTimer (us.foldl onFileChanged s) docs gs).timers - 1 }) := by
  obtain ⟨u, rest, rfl⟩ : ∃ u rest, us = u :: rest := by
    cases us with
    | nil => exact absurd rfl h2
    | cons u rest => exact ⟨u, rest, rfl⟩
  simp only [List.foldl_cons]
  set s1 := List.foldl onFileChanged (onFileChanged s u) rest with hs1
  have hpend : s1.pendingUpdates ≠ [] :=
    foldl_onFileChanged_pending_ne rest _ (onFileChanged_pending_ne s u)
  have hprog : s1.updateInProgress = false := by
    rw [hs1, foldl_onFileChanged_inProgress]; exact h1
  have hfire1 : fireTimer s1 docs gs =
      { indexInfo := buildIndex docs gs, updateInProgress := false,
        pendingUpdates := [], timers := s1.timers - 1 } := by
    rw [fireTimer.eq_1]
    rw [if_pos (And.intro hprog hpend)]
    simp [refreshIndex, hprog]
  have htimers : s1.timers = s.timers + (u :: rest).length := by
    have := foldl_onFileChanged_timers (u :: rest) s
    simpa using this
  refine ⟨htimers, hpend, ?_, ?_, ?_⟩
  · rw [hfire1]
  · rw [hfire1]
  · rw [hfire1]
    simp [fireTimer]

/-- C6 (witness): a one-notification burst from the idle state. -/
theorem debounce_burst_one_rebuild_witness :
    (fireTimer (["file:///a.gorch"].foldl onFileChanged
        ⟨clearedIndex, false, [], 0⟩) [singleOpDoc] []).indexInfo =
      buildIndex [singleOpDoc] [] :=
  (debounce_burst_one_rebuild ⟨clearedIndex, false, [], 0⟩ ["file:///a.gorch"]
    [singleOpDoc] [] rfl (by simp)).2.2.1

/-- C6 (counterexample): a second notification arriving before the
first timer fires schedules a SECOND timer: after two notifications
from the idle state two outstanding timers exist, refuting "at most
one pending-rebuild timer exists at a time" and "a new notification
… does not create or reset a timer". -/
theorem debounce_two_notifications_two_timers :
    (onFileChanged (onFileChanged ⟨clearedIndex, false, [], 0⟩
      "file:///a.gorch") "file:///b.gorch").timers = 2 := by
  decide

/-! ## Lookup lemmas -/

theorem find?_first {α : Type} (p : α → Bool) :
    ∀ (pre : List α) (a : α) (post : List α),
      (∀ x ∈ pre, p x = false) → p a = true →
      (pre ++ a :: post).find? p = some a := by
  intro pre
  induction pre with
  | nil =>
    intro a post _ ha
    simp [List.find?, ha]
  | cons x xs ih =>
    intro a post hpre ha
    have hx : p x = false := hpre x (by simp)
    simp only [List.cons_append, List.find?, hx]
    exact ih a post (fun y hy => hpre y (by simp [hy])) ha

/-- C10: the by-name lookups return the FIRST declaration of the
name in the index's accumulation order, deterministically shadowing
every later declaration of the same name. -/
theorem findByName_first_shadowing
    (preO postO : List OperatorInfo) (op : OperatorInfo) (n₁ : String)
    (preF postF : List FragmentInfo) (fr : FragmentInfo) (n₂ : String)
    (preS postS : List GoStructInfo) (st : GoStructInfo) (n₃ : String)
    (hO : ∀ o ∈ preO, o.name ≠ n₁) (hop : op.name = n₁)
    (hF : ∀ f ∈ preF, f.name ≠ n₂) (hfr : fr.name = n₂)
    (hS : ∀ x ∈ preS, x.name ≠ n₃) (hst : st.name = n₃) :
    findOperatorByName
      ⟨preO ++ op :: postO, preF ++ fr :: postF, preS ++ st :: postS⟩ n₁ = some op ∧
    findFragmentByName
      ⟨preO ++ op :: postO, preF ++ fr :: postF, preS ++ st :: postS⟩ n₂ = some fr ∧
    findGoStructByName
      ⟨preO ++ op :: postO, preF ++ fr :: postF, preS ++ st :: postS⟩ n₃ = some st := by
  refine ⟨?_, ?_, ?_⟩
  · exact find?_first _ preO op postO
      (fun x hx => decide_eq_false (hO x hx)) (by simp [hop])
  · exact find?_first _ preF fr postF
      (fun x hx => decide_eq_false (hF x hx)) (by simp [hfr])
  · exact find?_first _ preS st postS
      (fun x hx => decide_eq_false (hS x hx)) (by simp [hst])

/-- C10 (witness): with two operators, fragments and structs sharing
a name, the lookups return the first of each. -/
theorem findByName_first_shadowing_witness :
    findOperatorByName
      ⟨[⟨"a", "A", "p", "f", "1", "u1"⟩, ⟨"a", "Z", "q", "g", "2", "u2"⟩],
       [⟨"fr", "u1"⟩, ⟨"fr", "u2"⟩],
       [⟨"S", "p", "f", "u1"⟩, ⟨"S", "q", "g", "u2"⟩]⟩ "a" =
      some ⟨"a", "A", "p", "f", "1", "u1"⟩ ∧
    findFragmentByName
      ⟨[⟨"a", "A", "p", "f", "1", "u1"⟩, ⟨"a", "Z", "q", "g", "2", "u2"⟩],
       [⟨"fr", "u1"⟩, ⟨"fr", "u2"⟩],
       [⟨"S", "p", "f", "u1"⟩, ⟨"S", "q", "g", "u2"⟩]⟩ "fr" =
      some ⟨"fr", "u1"⟩ ∧
    findGoStructByName
      ⟨[⟨"a", "A", "p", "f", "1", "u1"⟩, ⟨"a", "Z", "q", "g", "2", "u2"⟩],
       [⟨"fr", "u1"⟩, ⟨"fr", "u2"⟩],
       [⟨"S", "p", "f", "u1"⟩, ⟨"S", "q", "g", "u2"⟩]⟩ "S" =
      some ⟨"S", "p", "f", "u1"⟩ :=
  findByName_first_shadowing
    [] [⟨"a", "Z", "q", "g", "2", "u2"⟩] ⟨"a", "A", "p", "f", "1", "u1"⟩ "a"
    [] [⟨"fr", "u2"⟩] ⟨"fr", "u1"⟩ "fr"
    [] [⟨"S", "q", "g", "u2"⟩] ⟨"S", "p", "f", "u1"⟩ "S"
    (by simp) rfl (by simp) rfl (by simp) rfl

/-- C8: definition resolution for a struct name tries the tiers in
order — Go-extension lookup, index-snapshot lookup, live on-demand
scan — returning the first tier's non-empty result; when the
external integration is unavailable (or returns an empty list) and
the index has no entry but the live scan locates the struct,
resolution succeeds via the third tier; and when classification
fails, or every tier fails, the result is absence (the embedding is
a total function into `Option`, so no error is ever produced). -/
theorem resolution_tiering (env : ResolveEnv) (n : String)
    (l : GoLocation) (ls : List GoLocation) (st stScan : GoStructInfo) :
    (provideDefinition none env = none) ∧
    (env.goExt = some (l :: ls) → handleOperatorDefinition env n = some l) ∧
    ((env.goExt = none ∨ env.goExt = some []) →
       findGoStructByName env.index n = some st →
       handleOperatorDefinition env n = some { uri := st.uri }) ∧
    ((env.goExt = none ∨ env.goExt = some []) →
       findGoStructByName env.index n = none →
       env.scanStructs.find? (fun x => decide (x.name = n)) = some stScan →
       handleOperatorDefinition env n = some { uri := stScan.uri }) ∧
    ((env.goExt = none ∨ env.goExt = some []) →
       findGoStructByName env.index n = none →
       env.scanStructs.find? (fun x => decide (x.name = n)) = none →
       handleOperatorDefinition env n = none) := by
  refine ⟨rfl, ?_, ?_, ?_, ?_⟩
  · intro h
    simp [handleOperatorDefinition, h]
  · intro h hidx
    rcases h with h | h <;> simp [handleOperatorDefinition, h, hidx]
  · intro h hidx hscan
    rcases h with h | h <;>
      simp [handleOperatorDefinition, validateGoStruct, h, hidx, hscan]
  · intro h hidx hscan
    rcases h with h | h <;>
      simp [handleOperatorDefinition, validateGoStruct, h, hidx, hscan]

/-- C8 (witness): Go extension unavailable, index empty, live scan
finds the struct — the third tier resolves it. -/
theorem resolution_tiering_witness :
    handleOperatorDefinition
      ⟨none, ⟨[], [], []⟩, [⟨"S", "p", "f", "file:///s.go"⟩]⟩ "S" =
      some { uri := "file:///s.go" } :=
  (resolution_tiering ⟨none, ⟨[], [], []⟩, [⟨"S", "p", "f", "file:///s.go"⟩]⟩
    "S" ⟨""⟩ [] ⟨"S", "p", "f", "file:///s.go"⟩ ⟨"S", "p", "f", "file:///s.go"⟩
    ).2.2.2.1 (Or.inl rfl) rfl (by decide)

/-! ## Operator-line scanner lemmas -/

theorem expectLit_append : ∀ (l rest : List Char), expectLit l (l ++ rest) = some rest := by
  intro l
  induction l with
  | nil => intro rest; rfl
  | cons c cs ih => intro rest; simp [expectLit, ih]

theorem dropWs_cons_of_not_ws (c : Char) (h : isWsChar c = false) :
    ∀ cs : List Char, dropWs (c :: cs) = c :: cs := by
  intro cs
  simp [dropWs, h]

theorem expectChar_cons_self (c : Char) (cs : List Char) :
    expectChar c (c :: cs) = some cs := by
  simp [expectChar]

theorem expectChar_cons_ne (c a : Char) (h : a ≠ c) :
    ∀ cs : List Char, expectChar c (a :: cs) = none := by
  intro cs
  simp [expectChar, h]

theorem takeUntilCharNoNl_exact (stop : Char) :
    ∀ (pre : List Char), (∀ a ∈ pre, a ≠ stop ∧ isNlChar a = false) →
      ∀ rest, takeUntilCharNoNl stop (pre ++ stop :: rest) = some (pre, rest) := by
  intro pre
  induction pre with
  | nil => intro _ rest; simp [takeUntilCharNoNl]
  | cons c cs ih =>
    intro h rest
    have hc := h c (by simp)
    have ihr := ih (fun a ha => h a (by simp [ha])) rest
    simp only [List.cons_append, takeUntilCharNoNl, if_neg hc.1, hc.2,
      Bool.false_eq_true, if_false, List.append_eq]
    rw [ihr]

theorem digitsRun_exact :
    ∀ (ds : List Char), (∀ a ∈ ds, isDigitChar a = true) →
      ∀ (c : Char) (rest : List Char), isDigitChar c = false →
      digitsRun (ds ++ c :: rest) = (ds, c :: rest) := by
  intro ds
  induction ds with
  | nil => intro _ c rest hc; simp [digitsRun, hc]
  | cons d dt ih =>
    intro h c rest hc
    have hd := h d (by simp)
    have ihr := ih (fun a ha => h a (by simp [ha])) c rest hc
    simp only [List.cons_append, digitsRun, hd, if_true, List.append_eq]
    rw [ihr]

theorem digit_not_ws (c : Char) (h : isDigitChar c = true) : isWsChar c = false := by
  by_contra hw
  have hw' : isWsChar c = true := by
    cases hb : isWsChar c
    · exact absurd hb hw
    · rfl
  simp only [isWsChar, Bool.or_eq_true, decide_eq_true_eq] at hw'
  rcases hw' with ((((h1 | h1) | h1) | h1) | h1) | h1 <;>
    (subst h1; exact absurd h (by decide))

theorem digit_ne_quote (c : Char) (h : isDigitChar c = true) : c ≠ '"' := by
  intro he
  subst he
  exact absurd h (by decide)

theorem findOperatorLineMatch_of_matchAt :
    ∀ (l : List Char) (m : OperatorMatch),
      matchOperatorLineAt l = some m → findOperatorLineMatch l = some m := by
  intro l m h
  cases l with
  | nil =>
    have hn : matchOperatorLineAt [] = none := by decide
    rw [hn] at h
    cases h
  | cons c cs =>
    rw [findOperatorLineMatch, h]

theorem matchOperatorLineAt_line3 (p s q : List Char)
    (hp : goodArg p) (hs : goodArg s) (hq : q ≠ []) (hqd : allDigits q) :
    matchOperatorLineAt (line3 p s q) = some (mkOperatorMatch p s none q) := by
  obtain ⟨qc, qt, rfl⟩ : ∃ a t, q = a :: t := by
    cases q with
    | nil => exact absurd rfl hq
    | cons a t => exact ⟨a, t, rfl⟩
  have hqc : isDigitChar qc = true := hqd qc (by simp)
  have dq := dropWs_cons_of_not_ws qc (digit_not_ws qc hqc)
  have eq3 := expectChar_cons_ne '"' qc (digit_ne_quote qc hqc)
  have d1 := dropWs_cons_of_not_ws '(' (by decide)
  have d2 := dropWs_cons_of_not_ws '"' (by decide)
  have d3 := dropWs_cons_of_not_ws ',' (by decide)
  have d4 := dropWs_cons_of_not_ws ')' (by decide)
  have tp : ∀ rest, takeUntilCharNoNl '"' (p ++ '"' :: rest) = some (p, rest) :=
    takeUntilCharNoNl_exact '"' p hp
  have ts : ∀ rest, takeUntilCharNoNl '"' (s ++ '"' :: rest) = some (s, rest) :=
    takeUntilCharNoNl_exact '"' s hs
  have g1 : digitsRun (qc :: (qt ++ [')'])) = (qc :: qt, [')']) := by
    have hgen := digitsRun_exact (qc :: qt) hqd ')' [] (by decide)
    simpa using hgen
  have hne : ((qc :: qt : List Char) = []) = False := by simp
  simp only [line3, matchOperatorLineAt, matchOperatorOpt3, matchOperatorTail,
    expectLit_append, d1, d2, d3, d4, dq, expectChar_cons_self, eq3, tp, ts, g1,
    hne, if_false, List.cons_append, Option.map]

theorem matchOperatorLineAt_line4 (p s t q : List Char)
    (hp : goodArg p) (hs : goodArg s) (ht : goodArg t)
    (hq : q ≠ []) (hqd : allDigits q) :
    matchOperatorLineAt (line4 p s t q) = some (mkOperatorMatch p s (some t) q) := by
  obtain ⟨qc, qt, rfl⟩ : ∃ a u, q = a :: u := by
    cases q with
    | nil => exact absurd rfl hq
    | cons a u => exact ⟨a, u, rfl⟩
  have hqc : isDigitChar qc = true := hqd qc (by simp)
  have dq := dropWs_cons_of_not_ws qc (digit_not_ws qc hqc)
  have d1 := dropWs_cons_of_not_ws '(' (by decide)
  have d2 := dropWs_cons_of_not_ws '"' (by decide)
  have d3 := dropWs_cons_of_not_ws ',' (by decide)
  have d4 := dropWs_cons_of_not_ws ')' (by decide)
  have tp : ∀ rest, takeUntilCharNoNl '"' (p ++ '"' :: rest) = some (p, rest) :=
    takeUntilCharNoNl_exact '"' p hp
  have ts : ∀ rest, takeUntilCharNoNl '"' (s ++ '"' :: rest) = some (s, rest) :=
    takeUntilCharNoNl_exact '"' s hs
  have tt : ∀ rest, takeUntilCharNoNl '"' (t ++ '"' :: rest) = some (t, rest) :=
    takeUntilCharNoNl_exact '"' t ht
  have g1 : digitsRun (qc :: (qt ++ [')'])) = (qc :: qt, [')']) := by
    have hgen := digitsRun_exact (qc :: qt) hqd ')' [] (by decide)
    simpa using hgen
  have hne : ((qc :: qt : List Char) = []) = False := by simp
  simp only [line4, matchOperatorLineAt, matchOperatorOpt3, matchOperatorTail,
    expectLit_append, d1, d2, d3, d4, dq, expectChar_cons_self, tp, ts, tt, g1,
    hne, if_false, List.cons_append, Option.map]

/-- C7 (amended): `parseOperatorLine` (used by the definition and
hover providers) accepts both declaration forms — the 3-argument form
defaults the invocation name to the struct name, and the 4-argument
form with a non-empty third argument uses that explicit name — but
the index's declaration extractor `parseOperators` collects ONLY the
4-argument form: a 3-argument declaration inside a registration block
is not collected into the index. -/
theorem operatorLine_forms_and_collection (p s t q : List Char)
    (hp : goodArg p) (hs : goodArg s) (ht : goodArg t) (htne : t ≠ [])
    (hq : q ≠ []) (hqd : allDigits q) :
    (parseOperatorLine (String.mk (line3 p s q)) =
        some (mkOperatorMatch p s none q) ∧
      (mkOperatorMatch p s none q).operatorName = String.mk s) ∧
    (parseOperatorLine (String.mk (line4 p s t q)) =
        some (mkOperatorMatch p s (some t) q) ∧
      (mkOperatorMatch p s (some t) q).operatorName = String.mk t) ∧
    (parseOperators threeArgDoc = [] ∧ parseOperators mixedArgsDoc = [loaderOp]) := by
  refine ⟨⟨?_, rfl⟩, ⟨?_, ?_⟩, by decide, by decide⟩
  · exact findOperatorLineMatch_of_matchAt _ _
      (matchOperatorLineAt_line3 p s q hp hs hq hqd)
  · exact findOperatorLineMatch_of_matchAt _ _
      (matchOperatorLineAt_line4 p s t q hp hs ht hq hqd)
  · simp [mkOperatorMatch, htne]

/-- C7 (witness): the two forms at concrete arguments. -/
theorem operatorLine_forms_and_collection_witness :
    parseOperatorLine (String.mk (line3 "ops".toList "Fetcher".toList "1".toList)) =
      some (mkOperatorMatch "ops".toList "Fetcher".toList none "1".toList) ∧
    (mkOperatorMatch "ops".toList "Fetcher".toList none "1".toList).operatorName =
      String.mk "Fetcher".toList :=
  (operatorLine_forms_and_collection "ops".toList "Fetcher".toList
    "fetcher".toList "1".toList (by unfold goodArg; decide)
    (by unfold goodArg; decide) (by unfold goodArg; decide)
    (by decide) (by decide) (by unfold allDigits; decide)).1

/-- C7 (counterexample): a 3-argument declaration is accepted by
`parseOperatorLine` (with the invocation name defaulted to the struct
name) yet `parseOperators` collects NOTHING from a registration block
containing it — so it is false that both forms are collected. -/
theorem threeArg_accepted_but_not_collected :
    parseOperatorLine "OPERATOR(\"ops\",\"Fetcher\",1)" =
      some ⟨"ops", "Fetcher", "Fetcher", "1"⟩ ∧
    parseOperators threeArgDoc = [] := by
  decide

/-! ## Path lemmas -/

theorem lastSlashSplit_none_of_no_slash :
    ∀ (cs : List Char), '/' ∉ cs → lastSlashSplit cs = none := by
  intro cs
  induction cs with
  | nil => intro _; rfl
  | cons c ct ih =>
    intro h
    have hc : c ≠ '/' := by
      intro he
      exact h (by simp [he])
    have ht : '/' ∉ ct := by
      intro hm
      exact h (List.mem_cons_of_mem c hm)
    simp only [lastSlashSplit, ih ht]
    simp [hc]

theorem lastSlashSplit_last :
    ∀ (pre post : List Char), '/' ∉ post →
      lastSlashSplit (pre ++ '/' :: post) = some (pre, post) := by
  intro pre
  induction pre with
  | nil =>
    intro post h
    simp [lastSlashSplit, lastSlashSplit_none_of_no_slash post h]
  | cons c ct ih =>
    intro post h
    simp only [List.cons_append, lastSlashSplit, List.append_eq]
    rw [ih post h]

theorem jsDirname_of_split (p pre post : List Char)
    (h : lastSlashSplit p = some (pre, post)) (hne : pre ≠ []) :
    jsDirname p = pre := by
  cases pre with
  | nil => exact absurd rfl hne
  | cons a l => simp [jsDirname, h]

theorem jsBasename_of_split (p pre post : List Char)
    (h : lastSlashSplit p = some (pre, post)) :
    jsBasename p = post := by
  simp [jsBasename, h]

/-- C9 (amended): the extracted package path is the marker identifier
when a non-`main` marker is present; when the marker is `main` it is
`path.dirname(filePath)` — the FULL enclosing directory path, not the
bare directory name; and only when no marker is present is the bare
enclosing directory name (`basename(dirname(filePath))`) used. -/
theorem extractPackagePath_marker_cases (content : String)
    (pre dn fn : List Char) (hdn : '/' ∉ dn) (hfn : '/' ∉ fn) :
    (∀ w, findPackageId content.toList = some w → String.mk w ≠ "main" →
        extractPackagePath content
          (String.mk (pre ++ '/' :: (dn ++ '/' :: fn))) = String.mk w) ∧
    (findPackageId content.toList = some ("main".toList) →
        extractPackagePath content
          (String.mk (pre ++ '/' :: (dn ++ '/' :: fn))) =
          String.mk (pre ++ '/' :: dn)) ∧
    (findPackageId content.toList = none →
        extractPackagePath content
          (String.mk (pre ++ '/' :: (dn ++ '/' :: fn))) = String.mk dn) := by
  have hshape : pre ++ '/' :: (dn ++ '/' :: fn) = (pre ++ '/' :: dn) ++ '/' :: fn := by
    simp
  have hsplit : lastSlashSplit (pre ++ '/' :: (dn ++ '/' :: fn)) =
      some (pre ++ '/' :: dn, fn) := by
    rw [hshape]
    exact lastSlashSplit_last (pre ++ '/' :: dn) fn hfn
  have hdir : jsDirname (pre ++ '/' :: (dn ++ '/' :: fn)) = pre ++ '/' :: dn := by
    apply jsDirname_of_split _ _ fn hsplit
    cases pre <;> simp
  refine ⟨?_, ?_, ?_⟩
  · intro w hw hnm
    have hw2 : findPackageId content.data = some w := hw
    simp [extractPackagePath, String.toList, hw2, hnm]
  · intro hw
    have hw2 : findPackageId content.data = some ("main".toList) := hw
    have hmain : String.mk ("main".toList) = "main" := rfl
    simp [extractPackagePath, String.toList, hw2, hmain, hdir]
  · intro hw
    have hw2 : findPackageId content.data = none := hw
    have hbase : jsBasename (jsDirname (pre ++ '/' :: (dn ++ '/' :: fn))) = dn := by
      rw [hdir]
      exact jsBasename_of_split _ pre dn (lastSlashSplit_last pre dn hdn)
    simp [extractPackagePath, String.toList, hw2, hbase]

/-- C9 (witness): a `main` marker at a concrete path. -/
theorem extractPackagePath_marker_cases_witness :
    extractPackagePath "package main"
      (String.mk ("/a".toList ++ '/' :: ("b".toList ++ '/' :: "c.go".toList))) =
      String.mk ("/a".toList ++ '/' :: "b".toList) :=
  (extractPackagePath_marker_cases "package main" "/a".toList "b".toList
    "c.go".toList (by decide) (by decide)).2.1 (by decide)

/-- C9 (counterexample): with marker `package main` and file
`/a/b/c.go` the code extracts `/a/b` — the full directory path — while
the claim's "enclosing directory name" is `b` (exactly what the
no-marker case yields); the two differ. -/
theorem extractPackagePath_main_not_dirname :
    extractPackagePath "package main" "/a/b/c.go" = "/a/b" ∧
    extractPackagePath "// no marker" "/a/b/c.go" = "b" ∧
    ("/a/b" : String) ≠ "b" := by
  decide

/-! ## Grouping lemmas for the uniqueness checks -/

section Grouping

variable {κ : Type} [DecidableEq κ]

theorem keyGroup_append (key : OperatorInfo → Option κ) (l : List OperatorInfo)
    (v : OperatorInfo) (k : κ) :
    keyGroup key (l ++ [v]) k =
      keyGroup key l k ++ (if key v = some k then [v] else []) := by
  simp only [keyGroup, List.filter_append]
  congr 1
  by_cases h : key v = some k
  · simp [h]
  · simp [h]

theorem keyGroup_nil (key : OperatorInfo → Option κ) (k : κ) :
    keyGroup key [] k = [] := rfl

theorem mem_keyGroup (key : OperatorInfo → Option κ) (l : List OperatorInfo)
    (k : κ) (op : OperatorInfo) (h : op ∈ keyGroup key l k) :
    key op = some k ∧ op ∈ l := by
  have := List.mem_filter.mp h
  exact ⟨of_decide_eq_true this.2, this.1⟩

theorem insertGrouped_keys (k : κ) (v : OperatorInfo) :
    ∀ m : List (κ × List OperatorInfo),
      (insertGrouped k v m).map Prod.fst =
        if k ∈ m.map Prod.fst then m.map Prod.fst else m.map Prod.fst ++ [k] := by
  intro m
  induction m with
  | nil => simp [insertGrouped]
  | cons kg rest ih =>
    rcases kg with ⟨k', g⟩
    by_cases h : k' = k
    · subst h
      simp [insertGrouped]
    · simp only [insertGrouped, if_neg h, List.map_cons]
      rw [ih]
      by_cases h2 : k ∈ rest.map Prod.fst
      · rw [if_pos h2, if_pos (List.mem_cons_of_mem k' h2)]
      · have hnc : k ∉ k' :: rest.map Prod.fst := by
          intro hmem
          rcases List.mem_cons.mp hmem with he | hm
          · exact h he.symm
          · exact h2 hm
        rw [if_neg h2, if_neg hnc, List.cons_append]

theorem insertGrouped_keys_sup (k : κ) (v : OperatorInfo)
    (m : List (κ × List OperatorInfo)) (k' : κ) (h : k' ∈ m.map Prod.fst) :
    k' ∈ (insertGrouped k v m).map Prod.fst := by
  rw [insertGrouped_keys]
  by_cases h2 : k ∈ m.map Prod.fst
  · rw [if_pos h2]; exact h
  · rw [if_neg h2]; exact List.mem_append_left _ h

theorem insertGrouped_keys_self (k : κ) (v : OperatorInfo)
    (m : List (κ × List OperatorInfo)) :
    k ∈ (insertGrouped k v m).map Prod.fst := by
  rw [insertGrouped_keys]
  by_cases h2 : k ∈ m.map Prod.fst
  · rw [if_pos h2]; exact h2
  · rw [if_neg h2]; exact List.mem_append_right _ (by simp)

theorem insertGrouped_keys_nodup (k : κ) (v : OperatorInfo)
    (m : List (κ × List OperatorInfo)) (h : (m.map Prod.fst).Nodup) :
    ((insertGrouped k v m).map Prod.fst).Nodup := by
  rw [insertGrouped_keys]
  by_cases h2 : k ∈ m.map Prod.fst
  · rw [if_pos h2]; exact h
  · rw [if_neg h2, ← List.concat_eq_append]
    exact List.Nodup.concat h2 h

theorem insertGrouped_sound (key : OperatorInfo → Option κ)
    (l0 : List OperatorInfo) (k0 : κ) (op : OperatorInfo)
    (hk0 : key op = some k0) :
    ∀ m0 : List (κ × List OperatorInfo),
      (∀ k g, (k, g) ∈ m0 → g = keyGroup key l0 k) →
      ((m0.map Prod.fst).Nodup) →
      (k0 ∉ m0.map Prod.fst → keyGroup key l0 k0 = []) →
      ∀ k g, (k, g) ∈ insertGrouped k0 op m0 → g = keyGroup key (l0 ++ [op]) k := by
  intro m0
  induction m0 with
  | nil =>
    intro _ _ hmiss k g hmem
    simp only [insertGrouped, List.mem_singleton, Prod.mk.injEq] at hmem
    obtain ⟨h1, h2⟩ := hmem
    subst h1
    rw [h2, keyGroup_append, hmiss (by simp), hk0]
    simp
  | cons kg rest ih =>
    obtain ⟨k', g'⟩ := kg
    intro hs hnd hmiss k g hmem
    by_cases hkk : k' = k0
    · simp only [insertGrouped, if_pos hkk, List.mem_cons, Prod.mk.injEq] at hmem
      rcases hmem with ⟨rfl, rfl⟩ | hmem
      · have hkey : key op = some k := by rw [hk0, ← hkk]
        rw [keyGroup_append, if_pos hkey,
          hs k g' (List.mem_cons_self _ _)]
      · have hkmem : k ∈ rest.map Prod.fst := List.mem_map_of_mem Prod.fst hmem
        have hne : k ≠ k' := by
          intro he
          subst he
          exact (List.nodup_cons.mp hnd).1 hkmem
        have hcond : ¬ key op = some k := by
          rw [hk0]
          intro he
          have h2 : k0 = k := Option.some.inj he
          exact hne (hkk.trans h2).symm
        rw [keyGroup_append, if_neg hcond, List.append_nil]
        exact hs k g (List.mem_cons_of_mem _ hmem)
    · simp only [insertGrouped, if_neg hkk, List.mem_cons, Prod.mk.injEq] at hmem
      rcases hmem with ⟨rfl, rfl⟩ | hmem
      · have hcond : ¬ key op = some k := by
          rw [hk0]
          intro he
          exact hkk (Option.some.inj he).symm
        rw [keyGroup_append, if_neg hcond, List.append_nil]
        exact hs k g (List.mem_cons_self _ _)
      · refine ih (fun k g hg => hs k g (List.mem_cons_of_mem _ hg))
          (List.nodup_cons.mp hnd).2 ?_ k g hmem
        intro hk0m
        apply hmiss
        intro hmem2
        rcases List.mem_cons.mp hmem2 with he | hm
        · exact hkk he.symm
        · exact hk0m hm

theorem groupBy_invariant (key : OperatorInfo → Option κ) :
    ∀ (ops : List OperatorInfo) (m0 : List (κ × List OperatorInfo))
      (l0 : List OperatorInfo),
      (∀ k g, (k, g) ∈ m0 → g = keyGroup key l0 k) →
      ((m0.map Prod.fst).Nodup) →
      (∀ k, k ∉ m0.map Prod.fst → keyGroup key l0 k = []) →
      (∀ k g, (k, g) ∈ ops.foldl (groupStep key) m0 →
          g = keyGroup key (l0 ++ ops) k) ∧
      (((ops.foldl (groupStep key) m0).map Prod.fst).Nodup) ∧
      (∀ k, k ∉ (ops.foldl (groupStep key) m0).map Prod.fst →
          keyGroup key (l0 ++ ops) k = []) := by
  intro ops
  induction ops with
  | nil =>
    intro m0 l0 hs hnd hmiss
    simp only [List.foldl_nil, List.append_nil]
    exact ⟨hs, hnd, hmiss⟩
  | cons op ops ih =>
    intro m0 l0 hs hnd hmiss
    have hstep : ∀ k, keyGroup key (l0 ++ [op]) k =
        keyGroup key l0 k ++ (if key op = some k then [op] else []) :=
      fun k => keyGroup_append key l0 op k
    have hl : l0 ++ op :: ops = (l0 ++ [op]) ++ ops := by simp
    rw [List.foldl_cons]
    cases hk : key op with
    | none =>
      have hstep0 : groupStep key m0 op = m0 := by simp [groupStep, hk]
      rw [hstep0, hl]
      refine ih m0 (l0 ++ [op]) ?_ hnd ?_
      · intro k g hg
        rw [hstep k, hk, if_neg (by simp), List.append_nil]
        exact hs k g hg
      · intro k hkm
        rw [hstep k, hk, if_neg (by simp), List.append_nil]
        exact hmiss k hkm
    | some k0 =>
      have hstep0 : groupStep key m0 op = insertGrouped k0 op m0 := by
        simp [groupStep, hk]
      rw [hstep0, hl]
      refine ih (insertGrouped k0 op m0) (l0 ++ [op]) ?_ ?_ ?_
      · exact insertGrouped_sound key l0 k0 op hk m0 hs hnd (hmiss k0)
      · exact insertGrouped_keys_nodup k0 op m0 hnd
      · intro k hkm
        have hkne : k ≠ k0 := by
          intro he
          subst he
          exact hkm (insertGrouped_keys_self k op m0)
        have hkm0 : k ∉ m0.map Prod.fst := by
          intro hmem
          exact hkm (insertGrouped_keys_sup k0 op m0 k hmem)
        have hcond : ¬ key op = some k := by
          rw [hk]
          intro he
          exact hkne (Option.some.inj he).symm
        rw [hstep k, if_neg hcond, List.append_nil]
        exact hmiss k hkm0

theorem groupBy_sound (key : OperatorInfo → Option κ) (ops : List OperatorInfo)
    (k : κ) (g : List OperatorInfo) (h : (k, g) ∈ groupBy key ops) :
    g = keyGroup key ops k := by
  have := (groupBy_invariant key ops [] [] (by simp) (by simp)
    (fun k _ => keyGroup_nil key k)).1 k g h
  simpa using this

theorem insertGrouped_flatMap_perm (k : κ) (v : OperatorInfo) :
    ∀ m : List (κ × List OperatorInfo),
      List.Perm ((insertGrouped k v m).flatMap (fun kg => kg.2))
        (m.flatMap (fun kg => kg.2) ++ [v]) := by
  intro m
  induction m with
  | nil => simp [insertGrouped]
  | cons kg rest ih =>
    rcases kg with ⟨k', g⟩
    by_cases h : k' = k
    · subst h
      simp only [insertGrouped, if_pos rfl, List.flatMap_cons]
      have h1 : List.Perm ([v] ++ rest.flatMap (fun kg => kg.2))
          (rest.flatMap (fun kg => kg.2) ++ [v]) := List.perm_append_comm
      have h2 := List.Perm.append_left g h1
      simpa [List.append_assoc] using h2
    · simp only [insertGrouped, if_neg h, List.flatMap_cons]
      have h2 := List.Perm.append_left g ih
      simpa [List.append_assoc] using h2

theorem groupStep_flatMap_perm (key : OperatorInfo → Option κ)
    (m : List (κ × List OperatorInfo)) (op : OperatorInfo) :
    List.Perm ((groupStep key m op).flatMap (fun kg => kg.2))
      (m.flatMap (fun kg => kg.2) ++
        (if (key op).isSome then [op] else [])) := by
  cases hk : key op with
  | none => simp [groupStep, hk]
  | some k0 =>
    simp only [groupStep, hk, Option.isSome_some, if_pos]
    exact insertGrouped_flatMap_perm k0 op m

theorem groupBy_flatMap_perm (key : OperatorInfo → Option κ) :
    ∀ (ops : List OperatorInfo) (m0 : List (κ × List OperatorInfo)),
      List.Perm ((ops.foldl (groupStep key) m0).flatMap (fun kg => kg.2))
        (m0.flatMap (fun kg => kg.2) ++
          ops.filter (fun op => (key op).isSome)) := by
  intro ops
  induction ops with
  | nil => intro m0; simp
  | cons op ops ih =>
    intro m0
    rw [List.foldl_cons]
    have h1 := ih (groupStep key m0 op)
    have h2 := List.Perm.append_right (ops.filter (fun op => (key op).isSome))
      (groupStep_flatMap_perm key m0 op)
    have h3 := h1.trans h2
    refine h3.trans (List.Perm.of_eq ?_)
    cases hk : key op with
    | none => simp [List.filter_cons, hk]
    | some k0 => simp [List.filter_cons, hk, List.append_assoc]

end Grouping

theorem flatMap_snd_filter {κ : Type} (q : OperatorInfo → Bool) :
    ∀ m : List (κ × List OperatorInfo),
      (m.flatMap (fun kg => kg.2)).filter q =
        m.flatMap (fun kg => kg.2.filter q) := by
  intro m
  induction m with
  | nil => rfl
  | cons kg rest ih => simp [List.flatMap_cons, List.filter_append, ih]

theorem map_flatMap_helper {α β γ : Type} (f : α → List β) (g : β → γ) :
    ∀ l : List α, (l.flatMap f).map g = l.flatMap (fun a => (f a).map g) := by
  intro l
  induction l with
  | nil => rfl
  | cons a t ih => simp [List.flatMap_cons, ih]

theorem flatMap_congr_mem {α β : Type} (f g : α → List β) :
    ∀ l : List α, (∀ a ∈ l, f a = g a) → l.flatMap f = l.flatMap g := by
  intro l
  induction l with
  | nil => intro _; rfl
  | cons a t ih =>
    intro h
    simp only [List.flatMap_cons]
    rw [h a (by simp), ih (fun x hx => h x (by simp [hx]))]

theorem map_congr_mem {α β : Type} (f g : α → β) :
    ∀ l : List α, (∀ a ∈ l, f a = g a) → l.map f = l.map g := by
  intro l
  induction l with
  | nil => intro _; rfl
  | cons a t ih =>
    intro h
    simp only [List.map_cons]
    rw [h a (by simp), ih (fun x hx => h x (by simp [hx]))]

theorem map_eq_replicate_of_mem {α β : Type} (f : α → β) (c : β) :
    ∀ l : List α, (∀ a ∈ l, f a = c) →
      l.map f = List.replicate l.length c := by
  intro l
  induction l with
  | nil => intro _; rfl
  | cons a t ih =>
    intro h
    simp only [List.map_cons, List.length_cons, List.replicate_succ]
    rw [h a (by simp), ih (fun x hx => h x (by simp [hx]))]

theorem nameKey_some (op : OperatorInfo) (k : String)
    (h : nameKey op = some k) : k = op.name := by
  unfold nameKey at h
  by_cases h1 : op.name = ""
  · rw [if_pos h1] at h; cases h
  · rw [if_neg h1] at h
    by_cases h2 : jsTrim op.name = ""
    · rw [if_pos h2] at h; cases h
    · rw [if_neg h2] at h
      exact (Option.some.inj h).symm

theorem seqKey_some (op : OperatorInfo) (v : Int)
    (h : seqKey op = some v) : jsParseInt op.sequence = some v ∧ 0 < v := by
  unfold seqKey at h
  by_cases h1 : op.sequence = ""
  · rw [if_pos h1] at h
    have h0 : jsParseInt "0" = some 0 := by decide
    rw [h0] at h
    simp at h
  · rw [if_neg h1] at h
    cases hp : jsParseInt op.sequence with
    | none => rw [hp] at h; cases h
    | some w =>
      rw [hp] at h
      have h2 : (if 0 < w then some w else none) = some v := h
      by_cases hw : 0 < w
      · rw [if_pos hw] at h2
        have h3 := Option.some.inj h2
        subst h3
        exact ⟨rfl, hw⟩
      · rw [if_neg hw] at h2; cases h2

section DupShape

variable {κ : Type} [DecidableEq κ]

theorem dupCheckShape_map_atOp (key : OperatorInfo → Option κ)
    (mkMsg : κ → List OperatorInfo → String) (code : String)
    (ops : List OperatorInfo) (u : String) :
    (dupCheckShape key mkMsg code ops u).map (fun d => d.atOp) =
      (groupBy key ops).flatMap
        (fun kg => kg.2.filter (conflictBool key ops u)) := by
  unfold dupCheckShape
  rw [map_flatMap_helper]
  apply flatMap_congr_mem
  intro kg hkg
  have hg : kg.2 = keyGroup key ops kg.1 :=
    groupBy_sound key ops kg.1 kg.2 hkg
  by_cases hbig : 1 < kg.2.length
  · rw [if_pos hbig, List.map_map]
    have hid : ((fun d : GorchDiagnostic => d.atOp) ∘
        fun op => GorchDiagnostic.mk op code "Error" (mkMsg kg.1 kg.2)) = id := rfl
    rw [hid, List.map_id]
    apply List.filter_congr
    intro op hop
    have hkey : key op = some kg.1 :=
      (mem_keyGroup key ops kg.1 op (hg ▸ hop)).1
    have hbig2 : 1 < (keyGroup key ops kg.1).length := hg ▸ hbig
    simp [conflictBool, hkey, hbig2]
  · rw [if_neg hbig]
    simp only [List.map_nil]
    symm
    rw [List.filter_eq_nil_iff]
    intro op hop
    have hkey : key op = some kg.1 :=
      (mem_keyGroup key ops kg.1 op (hg ▸ hop)).1
    have hbig2 : ¬ 1 < (keyGroup key ops kg.1).length := hg ▸ hbig
    simp [conflictBool, hkey, hbig2]

theorem conflictBool_imp_isSome (key : OperatorInfo → Option κ)
    (ops : List OperatorInfo) (u : String) (op : OperatorInfo) :
    (conflictBool key ops u op && (key op).isSome) = conflictBool key ops u op := by
  cases hk : key op with
  | none => simp [conflictBool, hk]
  | some k => simp [hk]

theorem dupCheckShape_perm (key : OperatorInfo → Option κ)
    (mkMsg : κ → List OperatorInfo → String) (code : String)
    (ops : List OperatorInfo) (u : String) :
    List.Perm ((dupCheckShape key mkMsg code ops u).map (fun d => d.atOp))
      (ops.filter (conflictBool key ops u)) := by
  rw [dupCheckShape_map_atOp, ← flatMap_snd_filter]
  have hperm : List.Perm ((groupBy key ops).flatMap (fun kg => kg.2))
      (ops.filter (fun op => (key op).isSome)) := by
    have := groupBy_flatMap_perm key ops []
    simpa [groupBy] using this
  have hfil := hperm.filter (conflictBool key ops u)
  refine hfil.trans (List.Perm.of_eq ?_)
  rw [List.filter_filter]
  apply List.filter_congr
  intro op _
  exact conflictBool_imp_isSome key ops u op

theorem dupCheckShape_mem (key : OperatorInfo → Option κ)
    (mkMsg : κ → List OperatorInfo → String) (code : String)
    (ops : List OperatorInfo) (u : String) (d : GorchDiagnostic)
    (hd : d ∈ dupCheckShape key mkMsg code ops u) :
    d.code = code ∧ d.severity = "Error" ∧ d.atOp.documentUri = u ∧
    ∃ k, key d.atOp = some k ∧ d.message = mkMsg k (keyGroup key ops k) := by
  unfold dupCheckShape at hd
  rw [List.mem_flatMap] at hd
  obtain ⟨kg, hkg, hdin⟩ := hd
  have hg : kg.2 = keyGroup key ops kg.1 :=
    groupBy_sound key ops kg.1 kg.2 hkg
  by_cases hbig : 1 < kg.2.length
  · rw [if_pos hbig, List.mem_map] at hdin
    obtain ⟨op, hopmem, hmk⟩ := hdin
    have hfil := List.mem_filter.mp hopmem
    have hdoc : op.documentUri = u := of_decide_eq_true hfil.2
    have hkey : key op = some kg.1 :=
      (mem_keyGroup key ops kg.1 op (hg ▸ hfil.1)).1
    subst hmk
    exact ⟨rfl, rfl, hdoc, kg.1, hkey, by rw [← hg]⟩
  · rw [if_neg hbig] at hdin
    exact absurd hdin (List.not_mem_nil d)

end DupShape

/-- C3 (amended): with blank names (empty or whitespace-only after
trimming) excluded from the grouping, the duplicate-name check is
exact — the diagnostics' operators are, up to order, precisely the
operators of the target document whose (non-blank) name is carried by
at least two operators workspace-wide (one Error each, and zero
diagnostics for a document with no conflicting declaration); every
diagnostic has code `duplicate-name`, sits in the target document,
and its message enumerates every conflicting declaration's package
path, file path and owning file. -/
theorem checkOperatorNameUniqueness_exact (ops : List OperatorInfo) (u : String) :
    List.Perm ((checkOperatorNameUniqueness ops u).map (fun d => d.atOp))
      (ops.filter (conflictBool nameKey ops u)) ∧
    (checkOperatorNameUniqueness ops u).map (fun d => d.code) =
      List.replicate (checkOperatorNameUniqueness ops u).length "duplicate-name" ∧
    (checkOperatorNameUniqueness ops u).map (fun d => d.atOp.documentUri) =
      List.replicate (checkOperatorNameUniqueness ops u).length u ∧
    (checkOperatorNameUniqueness ops u).map (fun d => d.message) =
      (checkOperatorNameUniqueness ops u).map
        (fun d => nameCanonicalMessage ops d.atOp) := by
  have hshape : checkOperatorNameUniqueness ops u =
      dupCheckShape nameKey nameDupMessage "duplicate-name" ops u := rfl
  refine ⟨?_, ?_, ?_, ?_⟩
  · rw [hshape]
    exact dupCheckShape_perm nameKey nameDupMessage "duplicate-name" ops u
  · apply map_eq_replicate_of_mem
    intro d hd
    exact (dupCheckShape_mem nameKey nameDupMessage "duplicate-name" ops u d
      (hshape ▸ hd)).1
  · apply map_eq_replicate_of_mem
    intro d hd
    exact (dupCheckShape_mem nameKey nameDupMessage "duplicate-name" ops u d
      (hshape ▸ hd)).2.2.1
  · apply map_congr_mem
    intro d hd
    obtain ⟨_, _, _, k, hk, hmsg⟩ :=
      dupCheckShape_mem nameKey nameDupMessage "duplicate-name" ops u d
        (hshape ▸ hd)
    have : k = d.atOp.name := nameKey_some d.atOp k hk
    subst this
    rw [hmsg]
    rfl

/-- C3 (counterexample): two operators in different documents SHARE
the name `" "` (a single space), one of them lives in the diagnosed
document, yet the check emits zero duplicate-name diagnostics —
blank names are silently excluded from the grouping, so "exactly one
Error for each conflicting declaration present in the document" fails
as stated. -/
theorem blankName_shared_no_diagnostic :
    checkOperatorNameUniqueness
      [⟨" ", "A", "p", "f", "1", "file:///a.gorch"⟩,
       ⟨" ", "B", "q", "g", "2", "file:///b.gorch"⟩] "file:///a.gorch" = [] ∧
    (⟨" ", "A", "p", "f", "1", "file:///a.gorch"⟩ : OperatorInfo).name =
      (⟨" ", "B", "q", "g", "2", "file:///b.gorch"⟩ : OperatorInfo).name ∧
    ("file:///a.gorch" : String) ≠ "file:///b.gorch" := by
  decide

/-- C4: sequence value 0 is a sentinel excluded from the
duplicate-sequence grouping — no diagnostic is ever emitted at an
operator whose sequence parses to 0 (second conjunct) — while the
diagnostics' operators are, up to order, precisely the operators of
the target document whose parsed sequence is strictly positive and
shared by at least two operators workspace-wide (one Error each);
every diagnostic has code `duplicate-sequence`, sits in the target
document, and its message enumerates the conflicting group. -/
theorem checkOperatorSequenceUniqueness_exact (ops : List OperatorInfo) (u : String) :
    List.Perm ((checkOperatorSequenceUniqueness ops u).map (fun d => d.atOp))
      (ops.filter (conflictBool seqKey ops u)) ∧
    (checkOperatorSequenceUniqueness ops u).filter
      (fun d => decide (jsParseInt d.atOp.sequence = some 0)) = [] ∧
    (checkOperatorSequenceUniqueness ops u).map (fun d => d.code) =
      List.replicate (checkOperatorSequenceUniqueness ops u).length
        "duplicate-sequence" ∧
    (checkOperatorSequenceUniqueness ops u).map (fun d => d.atOp.documentUri) =
      List.replicate (checkOperatorSequenceUniqueness ops u).length u ∧
    (checkOperatorSequenceUniqueness ops u).map (fun d => d.message) =
      (checkOperatorSequenceUniqueness ops u).map
        (fun d => seqCanonicalMessage ops d.atOp) := by
  have hshape : checkOperatorSequenceUniqueness ops u =
      dupCheckShape seqKey seqDupMessage "duplicate-sequence" ops u := rfl
  refine ⟨?_, ?_, ?_, ?_, ?_⟩
  · rw [hshape]
    exact dupCheckShape_perm seqKey seqDupMessage "duplicate-sequence" ops u
  · rw [List.filter_eq_nil_iff]
    intro d hd
    obtain ⟨_, _, _, k, hk, _⟩ :=
      dupCheckShape_mem seqKey seqDupMessage "duplicate-sequence" ops u d
        (hshape ▸ hd)
    obtain ⟨hparse, hpos⟩ := seqKey_some d.atOp k hk
    simp only [decide_eq_true_eq, hparse, Option.some.injEq]
    intro he
    rw [he] at hpos
    exact absurd hpos (by decide)
  · apply map_eq_replicate_of_mem
    intro d hd
    exact (dupCheckShape_mem seqKey seqDupMessage "duplicate-sequence" ops u d
      (hshape ▸ hd)).1
  · apply map_eq_replicate_of_mem
    intro d hd
    exact (dupCheckShape_mem seqKey seqDupMessage "duplicate-sequence" ops u d
      (hshape ▸ hd)).2.2.1
  · apply map_congr_mem
    intro d hd
    obtain ⟨_, _, _, k, hk, hmsg⟩ :=
      dupCheckShape_mem seqKey seqDupMessage "duplicate-sequence" ops u d
        (hshape ▸ hd)
    rw [hmsg]
    unfold seqCanonicalMessage
    rw [hk]

end Gorch
